import Mathlib

/-!
Verification of the combyne template engine's parser (lib/tree.js) and
compiler (lib/compiler.js) against its natural-language specification.

The parser is embedded shallowly: the destructively consumed token stack
becomes an explicit `List Token` threaded through every function, object
mutation becomes functional record update, JavaScript `throw` becomes
`Except.error`, and the three distinct falsy-ish return values of the
source (`root` object / `false` / `null`-or-`undefined`) become the
explicit result type `PRes`.  All recursion is driven by a fuel counter;
running out of fuel yields the reserved error string "FUEL", which never
occurs as a real JavaScript error message, so `.ok` results and real
error strings always coincide with the source's behaviour.

Generated JavaScript source text (the compiler's output) is modelled as
Lean `String`s.  Characters that are awkward in literals are written
with \x escapes: \x27 is the single quote, \x5c the backslash, \x7b and
\x7d the braces.
-/

/-- A lexer token as consumed by the parser: `name` is the token kind
(e.g. "START_PROP", "OTHER") and `capture` models `capture[0]`, the raw
matched text. -/
structure Token where
  name : String
  capture : String
deriving Repr, DecidableEq

/-- A filter descriptor built by `Tree.prototype.constructFilter`: the JS
object `\x7b type: "Filter", value, args \x7d`; `value` is `none` while the JS
field is still `undefined`. -/
structure FilterNode where
  value : Option String
  args : List String
deriving Repr, DecidableEq

/-- A condition object pushed by `constructEach` / `constructConditional`:
`\x7b type, value \x7d`, with `value = none` for the valueless `Not` condition
(JS `undefined`). -/
structure CondNode where
  type : String
  value : Option String
deriving Repr, DecidableEq

/-- A tree node.  JavaScript nodes are dynamic objects; the fields that the
parser and compiler ever read or write are `type`, `nodes`, `value`,
`filters`, `conditions`, `els`, `elsif` and `args`.  A field that a given
node never received is `none` / `[]` (the compiler guards `conditions`
with `node.conditions || []`, so absent and empty condition lists are
observationally equal; `delete root.nodes` in `constructPartial` is
modelled as the empty list, which nothing downstream distinguishes). -/
inductive Node where
  | mk (typ : Option String) (nodes : List Node) (val : Option String)
       (filters : List FilterNode) (conds : List CondNode)
       (els : Option Node) (elsif : Option Node) (args : List String) : Node
deriving Repr

/-- The `type` field. -/
def Node.typ : Node → Option String
  | .mk t _ _ _ _ _ _ _ => t

/-- The `nodes` field. -/
def Node.nodes : Node → List Node
  | .mk _ ns _ _ _ _ _ _ => ns

/-- The `value` field. -/
def Node.val : Node → Option String
  | .mk _ _ v _ _ _ _ _ => v

/-- The `filters` field. -/
def Node.filters : Node → List FilterNode
  | .mk _ _ _ fs _ _ _ _ => fs

/-- The `conditions` field. -/
def Node.conds : Node → List CondNode
  | .mk _ _ _ _ cs _ _ _ => cs

/-- The `els` field. -/
def Node.els : Node → Option Node
  | .mk _ _ _ _ _ e _ _ => e

/-- The `elsif` field. -/
def Node.elsif : Node → Option Node
  | .mk _ _ _ _ _ _ ei _ => ei

/-- The `args` field. -/
def Node.args : Node → List String
  | .mk _ _ _ _ _ _ _ a => a

/-- `root.nodes.push(x)`. -/
def pushNode : Node → Node → Node
  | .mk t ns v fs cs e ei a, x => .mk t (ns ++ [x]) v fs cs e ei a

/-- Replace the `nodes` field. -/
def withNodes : Node → List Node → Node
  | .mk t _ v fs cs e ei a, ns => .mk t ns v fs cs e ei a

/-- Replace the `conditions` field. -/
def withConds : Node → List CondNode → Node
  | .mk t ns v fs _ e ei a, cs => .mk t ns v fs cs e ei a

/-- Replace the `els` field. -/
def withEls : Node → Option Node → Node
  | .mk t ns v fs cs _ ei a, e => .mk t ns v fs cs e ei a

/-- Replace the `elsif` field. -/
def withElsif : Node → Option Node → Node
  | .mk t ns v fs cs e _ a, ei => .mk t ns v fs cs e ei a

/-- Replace the `filters` field. -/
def withFilters : Node → List FilterNode → Node
  | .mk t ns v _ cs e ei a, fs => .mk t ns v fs cs e ei a

/-- The fresh `\x7b nodes: [] \x7d` expression root allocated at the top of
`constructExpression` (and for `root.els` / `root.elsif`). -/
def freshBody : Node := .mk none [] none [] [] none none []

/-- The root `\x7b type: "Template", nodes: [] \x7d` node built by the `Tree`
constructor. -/
def templateRoot : Node := .mk (some "Template") [] none [] [] none none []

/-- The three observably different non-error results a parse routine can
hand back to `Tree.prototype.make`: a (truthy) node object, the literal
`false` returned by `constructComment`, and `null` / `undefined`. -/
inductive PRes where
  | nod (n : Node)
  | noth
  | halt
deriving Repr

/-- A JavaScript whitespace character (the set `String.prototype.trim`
strips: space, tab, line and page breaks, NBSP). -/
def isJsWS (c : Char) : Bool :=
  c = Char.ofNat 32 || c = Char.ofNat 9 || c = Char.ofNat 10 || c = Char.ofNat 13 ||
  c = Char.ofNat 11 || c = Char.ofNat 12 || c = Char.ofNat 160

/-- Models `String.prototype.trim`: strip leading and trailing JS
whitespace. -/
def jsTrim (s : String) : String :=
  ⟨(((s.data.dropWhile isJsWS).reverse.dropWhile isJsWS).reverse)⟩

/-- Models `identifier.split(".")`: split on every dot, keeping empty
segments (so the empty string yields one empty segment). -/
def splitDotAux : List Char → List Char → List String
  | [], acc => [⟨acc.reverse⟩]
  | c :: r, acc =>
      if c = Char.ofNat 46 then ⟨acc.reverse⟩ :: splitDotAux r []
      else splitDotAux r (c :: acc)

/-- Models `identifier.split(".")` on a string. -/
def jsSplitDot (s : String) : List String := splitDotAux s.data []

/-- The fresh filter descriptor `\x7b type: "Filter", args: [] \x7d` allocated at
the top of `constructFilter` (`value` still undefined). -/
def freshFilter : FilterNode := ⟨none, []⟩

/-- The property descriptor allocated at the top of `constructProperty`:
`\x7b type: encoded ? "Property" : "RawProperty", value: "", filters: [] \x7d`. -/
def propDescriptor (encoded : Bool) : Node :=
  .mk (some (if encoded then "Property" else "RawProperty")) [] (some "") [] [] none none []

/-- Replace the `type` field. -/
def withTyp : Node → Option String → Node
  | .mk _ ns v fs cs e ei a, t => .mk t ns v fs cs e ei a

/-- Replace the `value` field. -/
def withVal : Node → Option String → Node
  | .mk t ns _ fs cs e ei a, v => .mk t ns v fs cs e ei a

/-- Replace the `args` field. -/
def withArgs : Node → List String → Node
  | .mk t ns v fs cs e ei _, a => .mk t ns v fs cs e ei a

/-- `root.nodes.pop()`. -/
def popNode (root : Node) : Node := withNodes root root.nodes.dropLast

/-- A Text node `\x7b type: "Text", value \x7d`. -/
def textNode (s : String) : Node := .mk (some "Text") [] (some s) [] [] none none []

/-- `root.conditions.push(c)`. -/
def pushCond (root : Node) (c : CondNode) : Node := withConds root (root.conds ++ [c])

/-- `root.filters.push(f)`. -/
def pushFilter (root : Node) (f : FilterNode) : Node :=
  withFilters root (root.filters ++ [f])

/-- `previous.value += value` on the last condition object (the identifier
token-repair step of `constructConditional`); a JS `undefined` value would
string-concatenate as "undefined". -/
def appendLastCondValue (root : Node) (s : String) : Node :=
  match root.conds.getLast? with
  | none => root
  | some c =>
      withConds root (root.conds.dropLast ++ [⟨c.type, some ((c.value.getD "undefined") ++ s)⟩])

/-- Mirrors a mutation of the shared `current` filter object into every
position of `root.filters` that aliases it (JS object identity). -/
def mirrorCur (root : Node) (pushed : List Nat) (cur : FilterNode) : Node :=
  withFilters root (pushed.foldl (fun fs i => fs.set i cur) root.filters)

/-- Models the regex `isString = /['"]+/` test: does the text contain a
single or double quote? -/
def isStringTest (s : String) : Bool :=
  s.data.any (fun c => c = Char.ofNat 39 || c = Char.ofNat 34)

/-- Models `Number(value) === Number(value)` (i.e. `Number(value)` is not
NaN) for a trimmed string: the empty string coerces to 0, otherwise the
string must be a JS numeric literal (decimal with optional sign, fraction
and exponent, or an unsigned hex/octal/binary literal, or Infinity).  Only
the classification of condition tokens as Literal vs Identifier depends on
this. -/
def jsIsNumeric (s : String) : Bool :=
  let digits : List Char → Bool := fun l => !l.isEmpty && l.all (·.isDigit)
  let hexDigits : List Char → Bool := fun l =>
    !l.isEmpty && l.all (fun c => c.isDigit || (('a' ≤ c && c ≤ 'f') || ('A' ≤ c && c ≤ 'F')))
  let expPart : List Char → Bool := fun l =>
    match l with
    | [] => true
    | e :: r =>
        (e = 'e' || e = 'E') &&
          (match r with
           | s :: r' => if s = '+' || s = '-' then digits r' else digits r
           | [] => false)
  let rec mantissa : List Char → List Char → Bool × List Char := fun acc l =>
    match l with
    | c :: r => if c.isDigit then mantissa (acc ++ [c]) r else (!acc.isEmpty, c :: r)
    | [] => (!acc.isEmpty, [])
  let decimalTail : List Char → Bool := fun l =>
    let (hasInt, rest) := mantissa [] l
    match rest with
    | [] => hasInt
    | '.' :: r =>
        let (hasFrac, rest') := mantissa [] r
        (hasInt || hasFrac) && expPart rest'
    | rest' => hasInt && expPart rest'
  let unsigned : List Char → Bool := fun l =>
    match l with
    | '0' :: x :: r =>
        if x = 'x' || x = 'X' then hexDigits r
        else if x = 'o' || x = 'O' || x = 'b' || x = 'B' then digits r
        else decimalTail ('0' :: x :: r)
    | l => decimalTail l
  if s = "" then true
  else if s = "Infinity" || s = "+Infinity" || s = "-Infinity" then true
  else
    match s.data with
    | c :: r => if c = '+' || c = '-' then decimalTail r else unsigned (c :: r)
    | [] => true

mutual

/-- `Tree.prototype.make`: the body parser.  Returns the decorated root,
a flag (`true` for the JS `return root` when the stack is exhausted,
`false` for the JS `return null` when a delegated call signals the scope
closed), and the remaining stack. -/
def make (fuel : Nat) (root : Node) (END : Option String) (stack : List Token) :
    Except String (Node × Bool × List Token) :=
  match fuel, stack with
  | 0, _ => .error "FUEL"
  | _ + 1, [] => .ok (root, true, [])
  | fuel + 1, t :: rest =>
    match t.name with
    | "START_RAW" =>
        match propertyLoop fuel (propDescriptor false) rest with
        | .error e => .error e
        | .ok (p, s) => make fuel (pushNode root p) END s
    | "START_PROP" =>
        match propertyLoop fuel (propDescriptor true) rest with
        | .error e => .error e
        | .ok (p, s) => make fuel (pushNode root p) END s
    | "START_EXPR" =>
        match constructExpression fuel root END rest with
        | .error e => .error e
        | .ok (root', .nod n, s) => make fuel (pushNode root' n) END s
        | .ok (root', .noth, s) => make fuel root' END s
        | .ok (root', .halt, s) => .ok (root', false, s)
    | "END_EXPR" => make fuel root END rest
    | _ =>
        match root.nodes.getLast? with
        | some p =>
            if p.typ = some "Text" then
              make fuel (pushNode (popNode root) (textNode ((p.val.getD "undefined") ++ t.capture))) END rest
            else
              make fuel (pushNode root (textNode t.capture)) END rest
        | none => make fuel (pushNode root (textNode t.capture)) END rest

/-- The `while` loop of `Tree.prototype.constructProperty`, carrying the
accumulating property descriptor. -/
def propertyLoop (fuel : Nat) (prop : Node) (stack : List Token) :
    Except String (Node × List Token) :=
  match fuel, stack with
  | 0, _ => .error "FUEL"
  | _ + 1, [] => .error "Unterminated property."
  | fuel + 1, t :: rest =>
    match t.name with
    | "WHITESPACE" => propertyLoop fuel prop rest
    | "FILTER" => filterLoop fuel prop freshFilter [] rest
    | "END_RAW" => .ok (prop, rest)
    | "END_PROP" => .ok (prop, rest)
    | _ => propertyLoop fuel (withVal prop (some ((prop.val.getD "") ++ (jsTrim t.capture)))) rest

/-- The `while` loop of `Tree.prototype.constructFilter`.  `cur` is the
local `current` object; `pushed` lists the indices of `root.filters` that
alias `cur` (the nested-`FILTER` case pushes `current` and then keeps
looping, so later mutations of `current` are visible inside the list —
the aliasing the claims C3 traces through). -/
def filterLoop (fuel : Nat) (root : Node) (cur : FilterNode) (pushed : List Nat)
    (stack : List Token) : Except String (Node × List Token) :=
  match fuel, stack with
  | 0, _ => .error "FUEL"
  | _ + 1, [] => .ok (root, [])
  | fuel + 1, t :: rest =>
    match t.name with
    | "OTHER" =>
        let cur' : FilterNode :=
          match cur.value with
          | none => ⟨some (jsTrim t.capture), cur.args⟩
          | some _ => ⟨cur.value, cur.args ++ [(jsTrim t.capture)]⟩
        filterLoop fuel (mirrorCur root pushed cur') cur' pushed rest
    | "WHITESPACE" => filterLoop fuel root cur pushed rest
    | "END_RAW" => .ok (pushFilter root cur, rest)
    | "END_PROP" => .ok (pushFilter root cur, rest)
    | "FILTER" =>
        let root1 := pushFilter root cur
        match filterLoop fuel root1 freshFilter [] rest with
        | .error e => .error e
        | .ok (root2, s2) =>
            filterLoop fuel root2 cur (pushed ++ [root1.filters.length - 1]) s2
    | _ => .error ("Unexpected " ++ t.name ++ " encountered.")

/-- `Tree.prototype.constructExpression`: decides which construct follows
a `START_EXPR` token.  Returns the (possibly mutated, for ELSE/ELSIF)
caller root, the value the JS function returns, and the remaining
stack. -/
def constructExpression (fuel : Nat) (root : Node) (END : Option String)
    (stack : List Token) : Except String (Node × PRes × List Token) :=
  match fuel, stack with
  | 0, _ => .error "FUEL"
  | _ + 1, [] => .ok (root, .halt, [])
  | fuel + 1, t :: rest =>
    if some t.name = END then .ok (root, .halt, rest)
    else
      match t.name with
      | "WHITESPACE" => constructExpression fuel root END rest
      | "COMMENT" =>
          match constructComment fuel none rest with
          | .error e => .error e
          | .ok (res, s) => .ok (root, res, s)
      | "START_EACH" =>
          match constructEach fuel freshBody rest with
          | .error e => .error e
          | .ok (n, s) => .ok (root, .nod n, s)
      | "ELSIF" => constructConditional fuel root (some "ELSIF") rest
      | "ELSE" => constructConditional fuel root (some "ELSE") rest
      | "START_IF" =>
          match constructConditional fuel freshBody (some "START_IF") rest with
          | .error e => .error e
          | .ok (_, res, s) => .ok (root, res, s)
      | "PARTIAL" =>
          match constructPartial fuel freshBody rest with
          | .error e => .error e
          | .ok (n, s) => .ok (root, .nod n, s)
      | _ => .error "Invalid expression type."

/-- `Tree.prototype.constructComment`: discards tokens; `prev` is
`previous.name` (initially `\x7b\x7d`, i.e. `none`).  The JS function always
returns the literal `false`, modelled as `PRes.noth`. -/
def constructComment (fuel : Nat) (prev : Option String) (stack : List Token) :
    Except String (PRes × List Token) :=
  match fuel, stack with
  | 0, _ => .error "FUEL"
  | _ + 1, [] => .ok (.noth, [])
  | fuel + 1, t :: rest =>
    match t.name with
    | "COMMENT" =>
        if prev = some "START_EXPR" then
          match constructComment fuel none rest with
          | .error e => .error e
          | .ok (_, s) => constructComment fuel (some "COMMENT") s
        else constructComment fuel (some "COMMENT") rest
    | "END_EXPR" =>
        if prev = some "COMMENT" then .ok (.noth, rest)
        else constructComment fuel (some "END_EXPR") rest
    | _ => constructComment fuel (some t.name) rest

/-- The header `LOOP` of `Tree.prototype.constructEach`: collects loop
conditions until `END_EXPR`; tokens of any other kind are consumed and
ignored (the switch has no default case). -/
def eachLoop (fuel : Nat) (root : Node) (stack : List Token) :
    Except String (Node × List Token) :=
  match fuel, stack with
  | 0, _ => .error "FUEL"
  | _ + 1, [] => .ok (root, [])
  | fuel + 1, t :: rest =>
    match t.name with
    | "OTHER" => eachLoop fuel (pushCond root ⟨"Identifier", some (jsTrim t.capture)⟩) rest
    | "ASSIGN" => eachLoop fuel (pushCond root ⟨"Assignment", some (jsTrim t.capture)⟩) rest
    | "END_EXPR" => .ok (root, rest)
    | _ => eachLoop fuel root rest

/-- `Tree.prototype.constructEach`: tags the node as a LoopExpression,
parses the header, then parses the body with END_EACH as terminator;
`make`'s return value is discarded but its mutations are kept. -/
def constructEach (fuel : Nat) (root : Node) (stack : List Token) :
    Except String (Node × List Token) :=
  match fuel with
  | 0 => .error "FUEL"
  | fuel + 1 =>
    let root0 := withConds (withTyp root (some "LoopExpression")) []
    match eachLoop fuel root0 stack with
    | .error e => .error e
    | .ok (r1, s1) =>
        match make fuel r1 (some "END_EACH") s1 with
        | .error e => .error e
        | .ok (r2, _, s2) => .ok (r2, s2)

/-- The header `LOOP` of `Tree.prototype.constructConditional`; `prevT` is
the type of the JS `previous` condition object (initially `\x7b\x7d`, recomputed
from the condition list at the end of every iteration). -/
def condLoop (fuel : Nat) (root : Node) (prevT : Option String) (stack : List Token) :
    Except String (Node × List Token) :=
  match fuel, stack with
  | 0, _ => .error "FUEL"
  | _ + 1, [] => .ok (root, [])
  | fuel + 1, t :: rest =>
    let value := jsTrim t.capture
    let step : Node → Except String (Node × List Token) := fun r =>
      condLoop fuel r ((r.conds.getLast?).map CondNode.type) rest
    match t.name with
    | "NOT" => step (pushCond root ⟨"Not", none⟩)
    | "EQUALITY" => step (pushCond root ⟨"Equality", some value⟩)
    | "NOT_EQUALITY" => step (pushCond root ⟨"Equality", some value⟩)
    | "GREATER_THAN" => step (pushCond root ⟨"Equality", some value⟩)
    | "GREATER_THAN_EQUAL" => step (pushCond root ⟨"Equality", some value⟩)
    | "LESS_THAN" => step (pushCond root ⟨"Equality", some value⟩)
    | "LESS_THAN_EQUAL" => step (pushCond root ⟨"Equality", some value⟩)
    | "END_EXPR" => .ok (root, rest)
    | "WHITESPACE" => step root
    | _ =>
        if value = "false" || value = "true" then
          step (pushCond root ⟨"Literal", some value⟩)
        else if jsIsNumeric value then
          step (pushCond root ⟨"Literal", some value⟩)
        else if isStringTest value then
          step (pushCond root ⟨"Literal", some value⟩)
        else if prevT = some "Identifier" then
          step (appendLastCondValue root value)
        else
          step (pushCond root ⟨"Identifier", some value⟩)

/-- `Tree.prototype.constructConditional`.  `kind` is the dispatching
token name ("ELSE" / "ELSIF" / "START_IF", or `none` for the recursive
call on `root.elsif`).  Returns the updated root (ELSE/ELSIF mutate the
caller's own node), the JS return value, and the remaining stack. -/
def constructConditional (fuel : Nat) (root : Node) (kind : Option String)
    (stack : List Token) : Except String (Node × PRes × List Token) :=
  match fuel with
  | 0 => .error "FUEL"
  | fuel + 1 =>
    let root0 := withTyp root (match root.typ with
      | some ty => some ty
      | none => some "ConditionalExpression")
    if kind = some "ELSE" then
      match make fuel freshBody (some "END_IF") stack with
      | .error e => .error e
      | .ok (e, b, s) =>
          .ok (withEls root0 (some e), if b then .nod e else .halt, s)
    else if kind = some "ELSIF" then
      match constructConditional fuel freshBody none stack with
      | .error e => .error e
      | .ok (inner, res, s) => .ok (withElsif root0 (some inner), res, s)
    else
      match condLoop fuel root0 none stack with
      | .error e => .error e
      | .ok (r1, s1) =>
          match make fuel r1 (some "END_IF") s1 with
          | .error e => .error e
          | .ok (r2, _, s2) => .ok (r2, .nod r2, s2)

/-- The `LOOP` of `Tree.prototype.constructPartial`. -/
def partialLoop (fuel : Nat) (root : Node) (stack : List Token) :
    Except String (Node × List Token) :=
  match fuel, stack with
  | 0, _ => .error "FUEL"
  | _ + 1, [] => .ok (root, [])
  | fuel + 1, t :: rest =>
    match t.name with
    | "OTHER" =>
        match root.val with
        | none => partialLoop fuel (withVal root (some (jsTrim t.capture))) rest
        | some _ => partialLoop fuel (withArgs root (root.args ++ [(jsTrim t.capture)])) rest
    | "WHITESPACE" => partialLoop fuel root rest
    | "END_EXPR" => .ok (root, rest)
    | _ => .error ("Unexpected " ++ t.name ++ " encountered.")

/-- `Tree.prototype.constructPartial`: tags the node, deletes `nodes`
(modelled as the empty list), initialises `args`, then runs the loop. -/
def constructPartial (fuel : Nat) (root : Node) (stack : List Token) :
    Except String (Node × List Token) :=
  match fuel with
  | 0 => .error "FUEL"
  | fuel + 1 =>
      partialLoop fuel (withArgs (withNodes (withTyp root (some "PartialExpression")) []) []) stack

end

/-- `Tree.prototype.constructProperty` proper: allocates the descriptor,
then runs the loop. -/
def constructProperty (fuel : Nat) (encoded : Bool) (stack : List Token) :
    Except String (Node × List Token) :=
  propertyLoop fuel (propDescriptor encoded) stack

/-- `escapeValue` from compiler.js: escapes backslash, single quote, CR,
LF, tab, U+2028 and U+2029 inside a generated string literal. -/
def escapeValue (s : String) : String :=
  String.join (s.data.map (fun c =>
    if c = Char.ofNat 92 then "\x5c\x5c"
    else if c = Char.ofNat 39 then "\x5c\x27"
    else if c = Char.ofNat 13 then "\x5cr"
    else if c = Char.ofNat 10 then "\x5cn"
    else if c = Char.ofNat 9 then "\x5ct"
    else if c = Char.ofNat 0x2028 then "\x5cu2028"
    else if c = Char.ofNat 0x2029 then "\x5cu2029"
    else String.singleton c))

/-- `normalizeIdentifier` from compiler.js: `"."` becomes `data['.']`;
any other identifier is split on dots and each part becomes a
hash-style keyed lookup. -/
def normalizeIdentifier (identifier : String) : String :=
  if identifier = "." then "data[\x27.\x27]"
  else "data" ++ String.join ((jsSplitDot identifier).map (fun p => "[\x27" ++ p ++ "\x27]"))

/-- The quote test of `compileProperty`:
`identifier.indexOf("'") === -1 && identifier.indexOf('"') === -1`
is false, i.e. the identifier contains a single or double quote. -/
def jsHasQuote (v : String) : Bool :=
  v.data.any (fun c => c = Char.ofNat 39 || c = Char.ofNat 34)

/-- The initial identifier/value-check expression of `compileProperty`
(the ternary on `typeof identifier === 'function'`), assembled exactly as
the source's `[...].join(" ")`. -/
def propertyBase (identifier : String) (encode : Bool) : String :=
  "( typeof " ++ identifier ++ " === \x27function\x27 ? " ++
    (if encode then "encode(" ++ identifier ++ "())" else identifier ++ "()") ++
    " : " ++
    (if encode then "encode(" ++ identifier ++ ")" else identifier) ++ " )"

/-- The `node.filters.reduce` step of `compileProperty`: nests each filter
invocation around the accumulated expression, appending the filter's raw
arguments positionally.  A filter whose `value` is still JS `undefined`
string-coerces to "undefined". -/
def applyFilters (base : String) (filters : List FilterNode) : String :=
  filters.foldl (fun memo f =>
    "filters[\x27" ++ (f.value.getD "undefined") ++ "\x27](" ++ memo ++
      (if f.args.isEmpty then "" else ", " ++ String.intercalate ", " f.args) ++ ")") base

/-- `Compiler.prototype.compileProperty`: quotes in the accumulated
identifier suppress normalization; then the filter chain is nested around
the base expression.  A property node whose `value` is JS `undefined`
would raise a TypeError on `identifier.indexOf`. -/
def compileProperty (n : Node) (encode : Bool) : Except String String :=
  match n.val with
  | none => .error "TypeError"
  | some v =>
      let identifier := if jsHasQuote v then v else normalizeIdentifier v
      .ok (applyFilters (propertyBase identifier encode) n.filters)

/-- `Compiler.prototype.compilePartial`.  A partial node whose `value` is
JS `undefined` string-coerces to "undefined" inside the concatenation. -/
def compilePartial (n : Node) : Except String String :=
  .ok ("(partials[\x27" ++ (n.val.getD "undefined") ++ "\x27].render(" ++
    (match n.args with
     | [] => "null"
     | a :: _ => normalizeIdentifier a) ++ "))")

/-- One arm of the `node.conditions.map` switch in `compileConditional`.
An Identifier condition with a JS-`undefined` value would raise a
TypeError inside `normalizeIdentifier`; a Literal/Equality condition with
an `undefined` value — and a condition type with no matching case — make
the map callback produce `undefined`, which `Array.prototype.join`
renders as the empty string. -/
def compileCond1 (c : CondNode) : Except String String :=
  match c.type with
  | "Identifier" =>
      match c.value with
      | some v => .ok (normalizeIdentifier v)
      | none => .error "TypeError"
  | "Not" => .ok "!"
  | "Literal" => .ok (c.value.getD "")
  | "Equality" => .ok (c.value.getD "")
  | _ => .ok ""

/-- The `node.conditions.map(...)` traversal of `compileConditional`. -/
def condParts : List CondNode → Except String (List String)
  | [] => .ok []
  | c :: r =>
      match compileCond1 c with
      | .error e => .error e
      | .ok s =>
          match condParts r with
          | .error e => .error e
          | .ok rest => .ok (s :: rest)

/-- The `els || elsif || "''"` fallback of `compileConditional`: `none`
models JS `null`; the empty string is falsy, so an else-body that compiled
to the empty expression falls through to the elsif, and both absent yield
the literal `''`. -/
def condFallback (els elsifC : Option String) : String :=
  match (match els with
         | some s => if s = "" then elsifC else some s
         | none => elsifC) with
  | some s => if s = "" then "\x27\x27" else s
  | none => "\x27\x27"

mutual

/-- `Compiler.prototype.process`: compiles each node and joins the
compiled commands with `+`. -/
def process (fuel : Nat) : List Node → Except String String
  | [] =>
      match fuel with
      | 0 => .error "FUEL"
      | _ + 1 => .ok ""
  | n :: rest =>
      match fuel with
      | 0 => .error "FUEL"
      | fuel + 1 =>
          match compileNode fuel n with
          | .error e => .error e
          | .ok c =>
              match process fuel rest with
              | .error e => .error e
              | .ok r => .ok (if rest.isEmpty then c else c ++ "+" ++ r)

/-- The per-node dispatch of `Compiler.prototype.process`: the switch on
`node.type`, whose default case emits an escaped string literal from
`node.value` (a JS `undefined` value raises a TypeError in
`escapeValue`). -/
def compileNode (fuel : Nat) (n : Node) : Except String String :=
  match fuel with
  | 0 => .error "FUEL"
  | fuel + 1 =>
      match n.typ with
      | some "RawProperty" => compileProperty n false
      | some "Property" => compileProperty n true
      | some "ConditionalExpression" => compileConditional fuel n
      | some "LoopExpression" => compileLoop fuel n
      | some "PartialExpression" => compilePartial n
      | _ =>
          match n.val with
          | some v => .ok ("\x27" ++ escapeValue v ++ "\x27")
          | none => .error "TypeError"

/-- `Compiler.prototype.compileConditional`: fatal on an empty condition
list, then compiles the condition fragments, the else-body (if any), the
elsif chain (if any) — both eagerly, in source order — and the then-body,
and assembles the ternary with the `els || elsif || "''"` fallback. -/
def compileConditional (fuel : Nat) (n : Node) : Except String String :=
  match fuel with
  | 0 => .error "FUEL"
  | fuel + 1 =>
      if n.conds.isEmpty then .error "Missing conditions to if statement."
      else
        match condParts n.conds with
        | .error e => .error e
        | .ok parts =>
            match (match n.els with
                   | some e => Except.map some (process fuel e.nodes)
                   | none => .ok none) with
            | .error e => .error e
            | .ok elsC =>
                match (match n.elsif with
                       | some ei => Except.map some (compileConditional fuel ei)
                       | none => .ok none) with
                | .error e => .error e
                | .ok elsifC =>
                    match process fuel n.nodes with
                    | .error e => .error e
                    | .ok thenC =>
                        .ok ("((" ++ String.intercalate " " parts ++ ")?" ++ thenC ++
                          ":" ++ condFallback elsC elsifC ++ ")")

/-- `Compiler.prototype.compileLoop`: value/key aliases come from
condition positions 3 and 2 (defaults "i" and "."), the source from
position 0; `conditions.length && conditions[0].value` is JS-falsy for an
empty list, an undefined value, and the empty string, in which case the
loop iterates `data` itself and passes the empty string as the
value-alias argument. -/
def compileLoop (fuel : Nat) (n : Node) : Except String String :=
  match fuel with
  | 0 => .error "FUEL"
  | fuel + 1 =>
      let conds := n.conds
      let keyAlias := match conds[3]? with
        | some c => c.value.getD "undefined"
        | none => "i"
      let valAlias := match conds[2]? with
        | some c => c.value.getD "undefined"
        | none => "."
      let value : Option String := match conds with
        | [] => none
        | c :: _ => c.value
      let truthy : Bool := match value with
        | some v => v ≠ ""
        | none => false
      match process fuel n.nodes with
      | .error e => .error e
      | .ok body =>
          .ok ("map(" ++
            (match value, truthy with
             | some v, true => normalizeIdentifier v
             | _, _ => "data") ++
            ",\x27" ++ keyAlias ++ "\x27,\x27" ++ (if truthy then valAlias else "") ++
            "\x27,data,function(data) \x7breturn " ++ body ++ "\x7d).join(\x27\x27)")

end

/-- Modelled from the spec: the iteration helper `map` (lib/shared/map.js)
is not part of src/.  §6 gives its contract
`(collection, keyAliasName, valueAliasName, outerData, iteratorFn) ->
ordered sequence of rendered fragments` and §3/§8 give the loop defaults
(value alias ".", key alias "i") for a loop with no explicit
source/aliases — for which the compiler passes the empty string as the
value-alias argument, so the helper defaults an empty value alias to ".".
Scopes are association lists searched front-to-back (the per-iteration
bindings shadow the outer data); an element is tagged `Sum.inr`, an index
`Sum.inl`. -/
def mapModel {α β : Type} (coll : List α) (keyAlias valAlias : String)
    (outer : List (String × (Nat ⊕ α))) (iter : List (String × (Nat ⊕ α)) → β) :
    List β :=
  coll.enum.map (fun p =>
    iter (((if valAlias = "" then "." else valAlias), Sum.inr p.2) ::
          (keyAlias, Sum.inl p.1) :: outer))

/-- Is this node a Text node? -/
def isTextN (n : Node) : Bool := n.typ = some "Text"

/-- No two consecutive elements of the list are both Text nodes. -/
def noAdjTexts : List Node → Bool
  | [] => true
  | [_] => true
  | a :: b :: r => (!(isTextN a && isTextN b)) && noAdjTexts (b :: r)

mutual

/-- The deep no-adjacent-Texts invariant: holds of this node's own child
list and recursively of every child, else-body and elsif node. -/
def nodeOk : Node → Bool
  | .mk _ ns _ _ _ e ei _ => noAdjTexts ns && nodesOk ns && optOk e && optOk ei

/-- `nodeOk` over a node list. -/
def nodesOk : List Node → Bool
  | [] => true
  | n :: r => nodeOk n && nodesOk r

/-- `nodeOk` over an optional node. -/
def optOk : Option Node → Bool
  | none => true
  | some n => nodeOk n

end

mutual

/-- Every ConditionalExpression the compiler's recursion can reach from
this node — the node itself if it is conditional, conditionals nested in
node lists, else-bodies of reached conditionals, and whole elsif chains —
carries at least one condition. -/
def nodeSafeB : Node → Bool
  | .mk t ns _ _ cs e ei _ =>
      if t = some "ConditionalExpression" then
        (!cs.isEmpty) && nodesSafeB ns && elsNodesSafeB e && elsifSafeB ei
      else nodesSafeB ns

/-- The else-body of a conditional: only its child list is processed. -/
def elsNodesSafeB : Option Node → Bool
  | none => true
  | some (.mk _ ens _ _ _ _ _ _) => nodesSafeB ens

/-- An elsif child is compiled by `compileConditional` regardless of its
`type` tag, so it must satisfy the conditional-shaped check. -/
def elsifSafeB : Option Node → Bool
  | none => true
  | some (.mk _ ns _ _ cs e ei _) =>
      (!cs.isEmpty) && nodesSafeB ns && elsNodesSafeB e && elsifSafeB ei

/-- `nodeSafeB` over a node list. -/
def nodesSafeB : List Node → Bool
  | [] => true
  | n :: r => nodeSafeB n && nodesSafeB r

end

/-- The conditional-shaped safety check applied to a node reached as a
conditional (dispatch target or elsif child). -/
def condSafeB (n : Node) : Bool :=
  (!n.conds.isEmpty) && nodesSafeB n.nodes && elsNodesSafeB n.els && elsifSafeB n.elsif

/-- Spec-side reading of "a chain of keyed lookups": one bracket-quoted
key per path part, appended in order. -/
def keyedLookups : List String → String
  | [] => ""
  | p :: r => "[\x27" ++ p ++ "\x27]" ++ keyedLookups r

/-- Shorthand for building a token. -/
def tk (n c : String) : Token := ⟨n, c⟩

/-- Token stream of the spec example `\x7b\x7bhello\x7d\x7d\x7b%--\x7b\x7btest\x7d\x7d`: a property,
then a comment marker whose end never arrives, then the tokens of the
commented-out property. -/
def commentToks : List Token :=
  [tk "START_PROP" "\x7b\x7b", tk "OTHER" "hello", tk "END_PROP" "\x7d\x7d",
   tk "START_EXPR" "\x7b%", tk "COMMENT" "--",
   tk "START_PROP" "\x7b\x7b", tk "OTHER" "test", tk "END_PROP" "\x7d\x7d"]

/-- Token stream of `\x7b%if x%\x7dA\x7b%else%\x7dB\x7b%endif%\x7dZ`. -/
def ifElseToks : List Token :=
  [tk "START_EXPR" "\x7b%", tk "START_IF" "if", tk "WHITESPACE" " ", tk "OTHER" "x",
   tk "END_EXPR" "%\x7d", tk "TEXT" "A",
   tk "START_EXPR" "\x7b%", tk "ELSE" "else", tk "END_EXPR" "%\x7d", tk "TEXT" "B",
   tk "START_EXPR" "\x7b%", tk "END_IF" "endif", tk "END_EXPR" "%\x7d", tk "TEXT" "Z"]

/-- Token stream of `\x7b%if x%\x7dA\x7b%elsif y%\x7dB\x7b%endif%\x7dZ`. -/
def ifElsifToks : List Token :=
  [tk "START_EXPR" "\x7b%", tk "START_IF" "if", tk "WHITESPACE" " ", tk "OTHER" "x",
   tk "END_EXPR" "%\x7d", tk "TEXT" "A",
   tk "START_EXPR" "\x7b%", tk "ELSIF" "elsif", tk "WHITESPACE" " ", tk "OTHER" "y",
   tk "END_EXPR" "%\x7d", tk "TEXT" "B",
   tk "START_EXPR" "\x7b%", tk "END_IF" "endif", tk "END_EXPR" "%\x7d", tk "TEXT" "Z"]

/-- The interior of the chained-filter property `\x7b\x7bx|a|b\x7d\x7d` followed by one
more token `y` of the surrounding template (as handed to
`constructProperty` after its start marker was consumed). -/
def chainToks : List Token :=
  [tk "OTHER" "x", tk "FILTER" "|", tk "OTHER" "a", tk "FILTER" "|",
   tk "OTHER" "b", tk "END_PROP" "\x7d\x7d", tk "OTHER" "y"]

/-- The same chained-filter property followed by the start of another
expression tag. -/
def chainToks2 : List Token :=
  [tk "OTHER" "x", tk "FILTER" "|", tk "OTHER" "a", tk "FILTER" "|",
   tk "OTHER" "b", tk "END_PROP" "\x7d\x7d", tk "START_EXPR" "\x7b%"]

/-- A conditional node with a false literal condition, a then-body, an
else-body compiling to a nonempty expression, and an elsif chain: the
input on which the elsif-before-else claim is decided. -/
def bothBranchesNode : Node :=
  .mk (some "ConditionalExpression") [textNode "T"] none []
    [⟨"Literal", some "false"⟩]
    (some (.mk none [textNode "E"] none [] [] none none []))
    (some (.mk (some "ConditionalExpression") [textNode "F"] none []
      [⟨"Literal", some "true"⟩] none none []))
    []

/-- A conditional node with one condition whose elsif child has an empty
condition list (as the parser produces for `\x7b%if x%\x7d..\x7b%elsif%\x7d..\x7b%endif%\x7d`). -/
def emptyElsifNode : Node :=
  .mk (some "ConditionalExpression") [] none []
    [⟨"Identifier", some "x"⟩] none
    (some (.mk (some "ConditionalExpression") [] none [] [] none none []))
    []

/-- Token stream of `a\x7b\x7bx\x7d\x7db c` (text, property, more text): the C4
witness input. -/
def c4Toks : List Token :=
  [tk "TEXT" "a", tk "START_PROP" "\x7b\x7b", tk "OTHER" "x", tk "END_PROP" "\x7d\x7d",
   tk "TEXT" "b", tk "TEXT" " c"]

/-- Token stream of an unterminated property `\x7b\x7bx ` reaching end of
stream with neither terminator nor filter separator. -/
def untermToks : List Token :=
  [tk "START_PROP" "\x7b\x7b", tk "OTHER" "x", tk "WHITESPACE" " "]

/-- How a root's `type` tag can evolve across a body parse: an existing
tag is preserved; an untagged body object can only acquire the
"ConditionalExpression" tag (via a stray else/elsif inside it). -/
def typEvolve (root r : Node) : Prop :=
  (∀ t, root.typ = some t → r.typ = some t) ∧
  (root.typ = none → r.typ = none ∨ r.typ = some "ConditionalExpression")

/-- The four fields the deep Text invariant depends on (plus the type
tag), stated equal between two nodes. -/
def coreFieldsEq (a b : Node) : Prop :=
  a.typ = b.typ ∧ a.nodes = b.nodes ∧ a.els = b.els ∧ a.elsif = b.elsif

/-- Bundles what C6 asserts of one `constructComment` run: it produced
the `false` sentinel (not a node, not the null abort, not an error) and
consumed no more than the remaining stream. -/
def commentSentinelOk (fuel : Nat) (prev : Option String) (stack : List Token) : Bool :=
  match constructComment fuel prev stack with
  | .ok (.noth, s) => decide (s.length ≤ stack.length)
  | _ => false

/-- The `root.type = root.type || "ConditionalExpression"` defaulting at
the top of `constructConditional`. -/
def defaultCondTyp (root : Node) : Option String :=
  match root.typ with
  | some t => some t
  | none => some "ConditionalExpression"

theorem strFoldlAppend (l : List String) :
    ∀ x : String, l.foldl (fun a b => a ++ b) x = x ++ l.foldl (fun a b => a ++ b) "" := by
  induction l with
  | nil => intro x; simp [String.append_empty]
  | cons a l ih =>
      intro x
      simp only [List.foldl_cons]
      rw [ih (x ++ a), ih ("" ++ a), String.empty_append, String.append_assoc]

theorem strJoinCons (a : String) (l : List String) :
    String.join (a :: l) = a ++ String.join l := by
  show (a :: l).foldl (fun r s => r ++ s) "" = a ++ l.foldl (fun r s => r ++ s) ""
  simp only [List.foldl_cons]
  rw [strFoldlAppend l ("" ++ a), String.empty_append]

theorem joinMapKeyed (l : List String) :
    String.join (l.map (fun p => "[\x27" ++ p ++ "\x27]")) = keyedLookups l := by
  induction l with
  | nil => rfl
  | cons a l ih => rw [List.map_cons, strJoinCons, ih]; rfl

/-- C3: the claim says filter parsing consumes tokens exactly up to and
including the property's terminator, the next token of the enclosing body
parse being the one right after it.  The code's nested-FILTER case in
`constructFilter` recurses but then keeps its own loop running, so for
the chained-filter property `\x7b\x7bx|a|b\x7d\x7d` followed by the token `y`, the
inner call consumes through END_PROP and the outer loop then consumes `y`
too, appending it as an argument of the already-completed filter `a` and
leaving an empty remaining stack; with a following START_EXPR token the
overrun instead throws "Unexpected START_EXPR encountered.".  The spec's
described behaviour (comment "Allow nested filters.") is the intent and
this is a missing-return slip in the code. -/
theorem C3_chain_overconsumes :
    constructProperty 64 true chainToks =
      .ok (.mk (some "Property") [] (some "x")
        [⟨some "a", ["y"]⟩, ⟨some "b", []⟩] [] none none [], [])
    ∧ constructProperty 64 true chainToks2 =
      .error "Unexpected START_EXPR encountered." :=
  ⟨by rfl, by rfl⟩

/-- C1 counterexample: a ConditionalExpression with a false condition, a
nonempty else-body and an elsif chain compiles with the ELSE body — not
the elsif — as the false-arm of the ternary, so the artifact attempts the
else branch first, refuting "elsif is attempted before else". -/
theorem C1_else_first_cex :
    compileConditional 64 bothBranchesNode = .ok "((false)?\x27T\x27:\x27E\x27)"
    ∧ "((false)?\x27T\x27:\x27E\x27)" ≠ "((false)?\x27T\x27:((true)?\x27F\x27:\x27\x27))" :=
  ⟨by rfl, by decide⟩

/-- C9 counterexample: a conditional carrying one condition whose elsif
child has an empty condition list still raises "Missing conditions to if
statement." (the recursion on `node.elsif` re-runs the check), refuting
"compilation of a conditional with at least one condition never raises
this error". -/
theorem C9_elsif_missing_cex :
    compileConditional 64 emptyElsifNode = .error "Missing conditions to if statement." := by
  rfl

theorem commentNothing (fuel : Nat) (stack : List Token) (prev : Option String)
    (h : stack.length < fuel) :
    ∃ s, constructComment fuel prev stack = .ok (PRes.noth, s) ∧
      s.length ≤ stack.length := by
  induction fuel generalizing stack prev with
  | zero => simp at h
  | succ f ih =>
    match stack with
    | [] => exact ⟨[], rfl, by simp⟩
    | t :: rest =>
      have hr : rest.length < f := by simpa using h
      by_cases h1 : t.name = "COMMENT"
      · by_cases h2 : prev = some "START_EXPR"
        · obtain ⟨s, hs, hlen⟩ := ih rest none hr
          obtain ⟨s', hs', hlen'⟩ := ih s (some "COMMENT") (by omega)
          refine ⟨s', ?_, by simp; omega⟩
          simp [constructComment, h1, h2, hs, hs']
        · obtain ⟨s, hs, hlen⟩ := ih rest (some "COMMENT") hr
          refine ⟨s, ?_, by simp; omega⟩
          simp [constructComment, h1, h2, hs]
      · by_cases h3 : t.name = "END_EXPR"
        · by_cases h4 : prev = some "COMMENT"
          · refine ⟨rest, ?_, by simp⟩
            simp [constructComment, h1, h3, h4]
          · obtain ⟨s, hs, hlen⟩ := ih rest (some "END_EXPR") hr
            refine ⟨s, ?_, by simp; omega⟩
            simp [constructComment, h1, h3, h4, hs]
        · obtain ⟨s, hs, hlen⟩ := ih rest (some t.name) hr
          refine ⟨s, ?_, by simp; omega⟩
          simp [constructComment, h1, h3, hs]

/-- C6: comment parsing always returns the "produced nothing" sentinel
(the JS literal `false`, `PRes.noth`) — never a node, never the null
abort result, never a fatal error — and consumes no more than the
remaining stream, so the body parser keeps previously accumulated
siblings and continues; and on the spec's example
`\x7b\x7bhello\x7d\x7d\x7b%--\x7b\x7btest\x7d\x7d` the parse keeps the prior property, nothing
inside the comment reaches any node, and the unterminated tail is dropped
without a fatal error. -/
theorem C6_comment_sentinel :
    (∀ (fuel : Nat) (stack : List Token) (prev : Option String),
        stack.length < fuel → commentSentinelOk fuel prev stack = true)
    ∧ make 64 templateRoot none commentToks =
        .ok (.mk (some "Template")
          [.mk (some "Property") [] (some "hello") [] [] none none []]
          none [] [] none none [], true, []) := by
  constructor
  · intro fuel stack prev h
    obtain ⟨s, hs, hlen⟩ := commentNothing fuel stack prev h
    simp [commentSentinelOk, hs, hlen]
  · rfl

/-- Witness for C6 at a concrete unterminated comment interior. -/
theorem C6_comment_sentinel_witness :
    ([tk "OTHER" "lol", tk "COMMENT" "--", tk "END_EXPR" "%\x7d"].length < 9)
    ∧ commentSentinelOk 9 none
        [tk "OTHER" "lol", tk "COMMENT" "--", tk "END_EXPR" "%\x7d"] = true :=
  ⟨by decide, C6_comment_sentinel.1 9 _ none (by decide)⟩

theorem propertyLoopUnterm (fuel : Nat) (stack : List Token) (prop : Node)
    (hf : stack.length < fuel)
    (hall : ∀ t ∈ stack, t.name ≠ "FILTER" ∧ t.name ≠ "END_RAW" ∧ t.name ≠ "END_PROP") :
    propertyLoop fuel prop stack = .error "Unterminated property." := by
  induction fuel generalizing stack prop with
  | zero => simp at hf
  | succ f ih =>
    match stack with
    | [] => rfl
    | t :: rest =>
      have hr : rest.length < f := by simpa using hf
      have ht := hall t (by simp)
      have hrest : ∀ u ∈ rest, u.name ≠ "FILTER" ∧ u.name ≠ "END_RAW" ∧ u.name ≠ "END_PROP" :=
        fun u hu => hall u (by simp [hu])
      by_cases h1 : t.name = "WHITESPACE"
      · simp [propertyLoop, h1, ih rest prop hr hrest]
      · simp [propertyLoop, h1, ht.1, ht.2.1, ht.2.2, ih rest _ hr hrest]

/-- C5: property parsing (raw or encoded) that reaches the end of the
token stream without ever meeting an end-of-raw/end-of-property
terminator or a filter separator fails fatally with "Unterminated
property.", and the error propagates through the body parser, so no tree
(hence no artifact) is produced — shown concretely on `\x7b\x7bx ` cut off
mid-property. -/
theorem C5_unterminated_property :
    (∀ (stack : List Token) (fuel : Nat) (encoded : Bool),
        stack.length < fuel →
        (∀ t ∈ stack, t.name ≠ "FILTER" ∧ t.name ≠ "END_RAW" ∧ t.name ≠ "END_PROP") →
        constructProperty fuel encoded stack = .error "Unterminated property.")
    ∧ make 64 templateRoot none untermToks = .error "Unterminated property." := by
  refine ⟨fun stack fuel encoded hf hall => ?_, by rfl⟩
  exact propertyLoopUnterm fuel stack (propDescriptor encoded) hf hall

/-- Witness for C5 at a concrete cut-off property interior. -/
theorem C5_unterminated_property_witness :
    [tk "OTHER" "x", tk "WHITESPACE" " "].length < 9
    ∧ constructProperty 9 true [tk "OTHER" "x", tk "WHITESPACE" " "] =
        .error "Unterminated property." :=
  ⟨by decide, C5_unterminated_property.1 _ 9 true (by decide) (by decide)⟩

/-- C7 counterexample: parsing `\x7b%if x%\x7dA\x7b%elsif y%\x7dB\x7b%endif%\x7dZ` attaches
the elsif node onto the caller's conditional (`.elsif`), but the same
node is ALSO appended to the if's body node list as a sibling of the body
content (`constructConditional`'s fresh path returns the node, and
`make` pushes every truthy result), and the if's body parse then runs on
past the endif, swallowing the trailing text `Z` — so the chain is not
only reachable through the original if's `elsif` field as the claim
states. -/
theorem C7_elsif_pushed_cex :
    make 64 templateRoot none ifElsifToks =
      .ok (.mk (some "Template")
        [.mk (some "ConditionalExpression")
          [textNode "A",
           .mk (some "ConditionalExpression") [textNode "B"] none []
             [⟨"Identifier", some "y"⟩] none none [],
           textNode "Z"]
          none [] [⟨"Identifier", some "x"⟩] none
          (some (.mk (some "ConditionalExpression") [textNode "B"] none []
             [⟨"Identifier", some "y"⟩] none none []))
          []]
        none [] [] none none [], true, []) := by rfl

/-- C7 amended: an ELSE or ELSIF continuation reuses the caller's
already-existing conditional node — the result differs from the caller's
node only in the defaulted `type` tag and the newly attached `els` /
`elsif` field — and no fresh node is created for the chain; however,
what is handed back to the body parser is `null` for a terminated else
(nothing is appended), while for an elsif (whose fresh-path parse always
returns its own node) the very node just attached is returned and hence
appended again to the enclosing body list. -/
theorem C7_reuse_caller_node :
    (∀ (fuel : Nat) (root : Node) (stack : List Token),
        constructConditional (fuel + 1) root (some "ELSE") stack =
          (make fuel freshBody (some "END_IF") stack).map
            (fun r => (withEls (withTyp root (defaultCondTyp root)) (some r.1),
              if r.2.1 then PRes.nod r.1 else PRes.halt, r.2.2)))
    ∧ (∀ (fuel : Nat) (root : Node) (stack : List Token),
        constructConditional (fuel + 1) root (some "ELSIF") stack =
          (constructConditional fuel freshBody none stack).map
            (fun r => (withElsif (withTyp root (defaultCondTyp root)) (some r.1),
              r.2.1, r.2.2)))
    ∧ (∀ (fuel : Nat) (root : Node) (stack : List Token) (r : Node) (res : PRes)
        (s : List Token),
        constructConditional fuel root none stack = .ok (r, res, s) → res = .nod r) := by
  refine ⟨fun fuel root stack => ?_, fun fuel root stack => ?_,
    fun fuel root stack r res s h => ?_⟩
  · cases h : make fuel freshBody (some "END_IF") stack with
    | error e => simp [constructConditional, defaultCondTyp, h, Except.map]
    | ok v => simp [constructConditional, defaultCondTyp, h, Except.map]
  · cases h : constructConditional fuel freshBody none stack with
    | error e => simp [constructConditional, defaultCondTyp, h, Except.map]
    | ok v => simp [constructConditional, defaultCondTyp, h, Except.map]
  · match fuel with
    | 0 => simp [constructConditional] at h
    | f + 1 =>
      simp only [constructConditional] at h
      split at h
      · simp at *
      · split at h
        · simp at *
        · cases h1 : condLoop f (withTyp root (match root.typ with
            | some ty => some ty
            | none => some "ConditionalExpression")) none stack with
          | error e => rw [h1] at h; simp at h
          | ok v =>
            obtain ⟨r1, s1⟩ := v
            rw [h1] at h
            simp only at h
            cases h2 : make f r1 (some "END_IF") s1 with
            | error e => rw [h2] at h; simp at h
            | ok w =>
              obtain ⟨r2, b2, s2⟩ := w
              rw [h2] at h
              simp only at h
              simp at h
              obtain ⟨ha, hb, hc⟩ := h
              subst ha
              exact hb.symm

/-- Witness for C7 on the concrete fresh-conditional header
`x%\x7d...\x7b%endif`: the parse succeeds and the returned result is the node
itself. -/
theorem C7_reuse_caller_node_witness :
    PRes.nod (.mk (some "ConditionalExpression") [] none []
        [⟨"Identifier", some "x"⟩] none none [])
      = PRes.nod (.mk (some "ConditionalExpression") [] none []
        [⟨"Identifier", some "x"⟩] none none []) :=
  C7_reuse_caller_node.2.2 20 freshBody
    [tk "OTHER" "x", tk "END_EXPR" "e", tk "START_EXPR" "s", tk "END_IF" "i"]
    _ _ [] (by rfl)

/-- C1 amended: with a false condition the compiled artifact attempts the
ELSE branch before the elsif — a present else-body whose compiled
expression is nonempty becomes the false-arm of the ternary even when an
elsif chain exists; with no else-body the (nonempty) compiled elsif chain
is used; with neither, the false-arm is the empty-string literal. -/
theorem C1_else_before_elsif :
    (∀ (fuel : Nat) (n : Node) (parts : List String) (thenC s : String)
        (e : Node) (elsifC : Option String),
        n.conds ≠ [] → condParts n.conds = .ok parts →
        n.els = some e → process fuel e.nodes = .ok s → s ≠ "" →
        (match n.elsif with
         | some ei => Except.map some (compileConditional fuel ei)
         | none => .ok none) = .ok elsifC →
        process fuel n.nodes = .ok thenC →
        compileConditional (fuel + 1) n =
          .ok ("((" ++ String.intercalate " " parts ++ ")?" ++ thenC ++ ":" ++ s ++ ")"))
    ∧ (∀ (fuel : Nat) (n : Node) (parts : List String) (thenC t : String) (ei : Node),
        n.conds ≠ [] → condParts n.conds = .ok parts →
        n.els = none → n.elsif = some ei → compileConditional fuel ei = .ok t → t ≠ "" →
        process fuel n.nodes = .ok thenC →
        compileConditional (fuel + 1) n =
          .ok ("((" ++ String.intercalate " " parts ++ ")?" ++ thenC ++ ":" ++ t ++ ")"))
    ∧ (∀ (fuel : Nat) (n : Node) (parts : List String) (thenC : String),
        n.conds ≠ [] → condParts n.conds = .ok parts →
        n.els = none → n.elsif = none →
        process fuel n.nodes = .ok thenC →
        compileConditional (fuel + 1) n =
          .ok ("((" ++ String.intercalate " " parts ++ ")?" ++ thenC ++ ":" ++
            "\x27\x27" ++ ")")) := by
  refine ⟨fun fuel n parts thenC s e elsifC hne hcp hels hs hsne helsif hthen => ?_,
    fun fuel n parts thenC t ei hne hcp hels helsif ht htne hthen => ?_,
    fun fuel n parts thenC hne hcp hels helsif hthen => ?_⟩
  · have hie : n.conds.isEmpty = false := by
      cases hc : n.conds with
      | nil => exact absurd hc hne
      | cons a l => simp
    have helsif' := helsif
    simp only [Except.map] at helsif'
    simp [compileConditional, hie, hcp, hels, hs, helsif', hthen, condFallback, hsne,
      Except.map]
  · have hie : n.conds.isEmpty = false := by
      cases hc : n.conds with
      | nil => exact absurd hc hne
      | cons a l => simp
    simp [compileConditional, hie, hcp, hels, helsif, ht, hthen, condFallback, htne, Except.map]
  · have hie : n.conds.isEmpty = false := by
      cases hc : n.conds with
      | nil => exact absurd hc hne
      | cons a l => simp
    simp [compileConditional, hie, hcp, hels, helsif, hthen, condFallback, Except.map]

/-- Witness for C1 (amended) at the concrete both-branches node. -/
theorem C1_else_before_elsif_witness :
    compileConditional 11 bothBranchesNode =
      .ok ("((" ++ String.intercalate " " ["false"] ++ ")?" ++ "\x27T\x27" ++ ":" ++
        "\x27E\x27" ++ ")") :=
  C1_else_before_elsif.1 10 bothBranchesNode ["false"] "\x27T\x27" "\x27E\x27"
    (.mk none [textNode "E"] none [] [] none none []) (some "((true)?\x27F\x27:\x27\x27)")
    (by decide) (by rfl) (by rfl) (by rfl) (by decide) (by rfl) (by rfl)

/-- C8: the compiled value of a property threads the base expression
through its filters left to right by nesting — appending filter `g` to a
chain wraps `filters[g](...)` around the compilation of the shorter
chain, passing that compilation as the first argument followed by `g`'s
raw arguments positionally, with the empty chain compiling to the base
value expression. -/
theorem C8_filters_left_to_right :
    (∀ (n : Node) (encode : Bool) (v : String), n.val = some v →
        compileProperty n encode =
          .ok (applyFilters
            (propertyBase (if jsHasQuote v then v else normalizeIdentifier v) encode)
            n.filters))
    ∧ (∀ (base : String) (fs : List FilterNode) (g : FilterNode),
        applyFilters base (fs ++ [g]) =
          "filters[\x27" ++ (g.value.getD "undefined") ++ "\x27](" ++ applyFilters base fs ++
            (if g.args.isEmpty then "" else ", " ++ String.intercalate ", " g.args) ++ ")")
    ∧ (∀ base : String, applyFilters base [] = base) := by
  refine ⟨fun n encode v hv => ?_, fun base fs g => ?_, fun base => rfl⟩
  · simp [compileProperty, hv]
  · simp [applyFilters, List.foldl_append]

/-- Witness for C8 on a concrete two-filter chain. -/
theorem C8_filters_left_to_right_witness :
    applyFilters "BASE" [⟨some "upper", []⟩, ⟨some "truncate", ["5"]⟩] =
      "filters[\x27" ++ "truncate" ++ "\x27](" ++
        applyFilters "BASE" [⟨some "upper", []⟩] ++
        (if (["5"] : List String).isEmpty then ""
         else ", " ++ String.intercalate ", " ["5"]) ++ ")" :=
  C8_filters_left_to_right.2.1 "BASE" [⟨some "upper", []⟩] ⟨some "truncate", ["5"]⟩

/-- `normalizeIdentifier` produces exactly the "data" scope followed by
one keyed lookup per dot-separated part, the single token "." looking up
the key ".". -/
theorem normIdKeyed (v : String) :
    normalizeIdentifier v =
      "data" ++ keyedLookups (if v = "." then ["."] else jsSplitDot v) := by
  by_cases h : v = "."
  · subst h; rfl
  · simp only [normalizeIdentifier, h, if_neg]
    rw [joinMapKeyed (jsSplitDot v)]
    simp [h]

/-- C10: an identifier containing a single or double quote is emitted
verbatim as the compiled value expression (normalization is skipped, so a
quoted string literal never consults the data context), while a
quote-free identifier always becomes a chain of keyed lookups on the
current data scope, the single token "." looking up the key ".". -/
theorem C10_quote_vs_lookup :
    (∀ (n : Node) (encode : Bool) (v : String), n.val = some v → jsHasQuote v = true →
        compileProperty n encode = .ok (applyFilters (propertyBase v encode) n.filters))
    ∧ (∀ (n : Node) (encode : Bool) (v : String), n.val = some v → jsHasQuote v = false →
        compileProperty n encode =
          .ok (applyFilters
            (propertyBase
              ("data" ++ keyedLookups (if v = "." then ["."] else jsSplitDot v)) encode)
            n.filters))
    ∧ normalizeIdentifier "." = "data" ++ keyedLookups ["."] := by
  refine ⟨fun n encode v hv hq => ?_, fun n encode v hv hq => ?_, rfl⟩
  · simp [compileProperty, hv, hq]
  · simp [compileProperty, hv, hq, normIdKeyed]

/-- Witness for C10 at the bare-dot property. -/
theorem C10_quote_vs_lookup_witness :
    compileProperty (.mk (some "Property") [] (some ".") [] [] none none []) true =
      .ok (applyFilters
        (propertyBase
          ("data" ++ keyedLookups (if "." = "." then ["."] else jsSplitDot ".")) true)
        []) :=
  C10_quote_vs_lookup.2.1 (.mk (some "Property") [] (some ".") [] [] none none [])
    true "." (by rfl) (by rfl)

/-- C2: a LoopExpression with no conditions (no explicit source, no
aliases) compiles to an iteration over the current data scope itself
(`map(data, ...)`) with key-alias argument "i" and value-alias argument
"" — and the spec-modelled iteration helper (`lib/shared/map.js` is not
in src/) binds each element under the value alias, defaulting the empty
alias to ".", and each index under the key alias, so inside the body
`data[\x27.\x27]` is the element and `data[\x27i\x27]` the index. -/
theorem C2_loop_defaults :
    (∀ (fuel : Nat) (n : Node) (body : String),
        n.typ = some "LoopExpression" → n.conds = [] →
        process fuel n.nodes = .ok body →
        compileLoop (fuel + 1) n =
          .ok ("map(data,\x27i\x27,\x27\x27,data,function(data) \x7breturn " ++ body ++
            "\x7d).join(\x27\x27)"))
    ∧ (∀ (α β : Type) (coll : List α) (outer : List (String × (Nat ⊕ α)))
        (iter : List (String × (Nat ⊕ α)) → β),
        mapModel coll "i" "" outer iter =
          coll.enum.map (fun p =>
            iter ((".", Sum.inr p.2) :: ("i", Sum.inl p.1) :: outer)))
    ∧ (∀ (α : Type) (x : α) (i : Nat) (outer : List (String × (Nat ⊕ α))),
        List.lookup "." ((".", Sum.inr x) :: ("i", Sum.inl i) :: outer) =
          some (Sum.inr x)
        ∧ List.lookup "i" ((".", Sum.inr x) :: ("i", Sum.inl i) :: outer) =
          some (Sum.inl i)) := by
  refine ⟨fun fuel n body htyp hconds hbody => ?_,
    fun α β coll outer iter => by simp [mapModel],
    fun α x i outer => ⟨rfl, rfl⟩⟩
  simp only [compileLoop, hconds, hbody]
  congr 1

/-- Witness for C2 at a concrete one-text-node loop body. -/
theorem C2_loop_defaults_witness :
    compileLoop 6 (.mk (some "LoopExpression") [textNode "B"] none [] [] none none []) =
      .ok ("map(data,\x27i\x27,\x27\x27,data,function(data) \x7breturn " ++ "\x27B\x27" ++
        "\x7d).join(\x27\x27)") :=
  C2_loop_defaults.1 5 (.mk (some "LoopExpression") [textNode "B"] none [] [] none none [])
    "\x27B\x27" (by rfl) (by rfl) (by rfl)

theorem condPartsNoMissing (l : List CondNode) :
    condParts l ≠ .error "Missing conditions to if statement." := by
  induction l with
  | nil => simp [condParts]
  | cons c r ih =>
    intro hc
    simp only [condParts] at hc
    rcases c with ⟨ty, v⟩
    by_cases h1 : ty = "Identifier"
    · cases v with
      | none => simp [compileCond1, h1] at hc
      | some w =>
        simp only [compileCond1, h1] at hc
        cases hr : condParts r with
        | error e => rw [hr] at hc; simp at hc; exact ih (hc ▸ hr)
        | ok p => rw [hr] at hc; simp at hc
    · have : ∃ s, compileCond1 ⟨ty, v⟩ = .ok s := by
        simp only [compileCond1]
        by_cases h2 : ty = "Not"
        · exact ⟨"!", by simp [h2]⟩
        · by_cases h3 : ty = "Literal"
          · exact ⟨v.getD "", by simp [h1, h2, h3]⟩
          · by_cases h4 : ty = "Equality"
            · exact ⟨v.getD "", by simp [h1, h2, h3, h4]⟩
            · exact ⟨"", by simp [h1, h2, h3, h4]⟩
      obtain ⟨s, hs⟩ := this
      rw [hs] at hc
      cases hr : condParts r with
      | error e => rw [hr] at hc; simp at hc; exact ih (hc ▸ hr)
      | ok p => rw [hr] at hc; simp at hc

theorem compilePropertyNoMissing (n : Node) (e : Bool) :
    compileProperty n e ≠ .error "Missing conditions to if statement." := by
  cases h : n.val with
  | none => simp [compileProperty, h]
  | some v => simp [compileProperty, h]

theorem elsifSafeBSome (m : Node) : elsifSafeB (some m) = condSafeB m := by
  rcases m with ⟨t, ns, v, fs, cs, e, ei, a⟩
  rfl

theorem noMissingAll (fuel : Nat) :
    (∀ l, nodesSafeB l = true →
        process fuel l ≠ .error "Missing conditions to if statement.")
    ∧ (∀ n, nodeSafeB n = true →
        compileNode fuel n ≠ .error "Missing conditions to if statement.")
    ∧ (∀ n, condSafeB n = true →
        compileConditional fuel n ≠ .error "Missing conditions to if statement.")
    ∧ (∀ n, nodesSafeB n.nodes = true →
        compileLoop fuel n ≠ .error "Missing conditions to if statement.") := by
  induction fuel with
  | zero =>
    refine ⟨fun l _ hc => ?_, fun n _ hc => ?_, fun n _ hc => ?_, fun n _ hc => ?_⟩
    · cases l <;> simp [process] at hc
    · simp [compileNode] at hc
    · simp [compileConditional] at hc
    · simp [compileLoop] at hc
  | succ f ih =>
    obtain ⟨ihP, ihN, ihC, ihL⟩ := ih
    have hproc : ∀ l, nodesSafeB l = true →
        process (f + 1) l ≠ .error "Missing conditions to if statement." := by
      intro l h hc
      match l with
      | [] => simp [process] at hc
      | n :: rest =>
        simp only [nodesSafeB, Bool.and_eq_true] at h
        simp only [process] at hc
        cases hcn : compileNode f n with
        | error e =>
          rw [hcn] at hc; simp at hc
          exact ihN n h.1 (hc ▸ hcn)
        | ok c =>
          rw [hcn] at hc
          cases hpr : process f rest with
          | error e =>
            rw [hpr] at hc; simp at hc
            exact ihP rest h.2 (hc ▸ hpr)
          | ok r => rw [hpr] at hc; simp at hc
    refine ⟨hproc, ?_, ?_, ?_⟩
    · -- compileNode
      intro n h hc
      rcases n with ⟨t, ns, v, fs, cs, e, ei, a⟩
      simp only [compileNode, Node.typ] at hc
      split at hc
      · exact compilePropertyNoMissing _ false hc
      · exact compilePropertyNoMissing _ true hc
      · simp only [nodeSafeB, if_pos rfl] at h
        refine ihC (.mk (some "ConditionalExpression") ns v fs cs e ei a) ?_ hc
        simp only [condSafeB, Node.conds, Node.nodes, Node.els, Node.elsif]
        simpa using h
      · simp only [nodeSafeB] at h
        rw [if_neg (by decide)] at h
        refine ihL (.mk (some "LoopExpression") ns v fs cs e ei a) ?_ hc
        simpa [Node.nodes] using h
      · simp [compilePartial] at hc
      · split at hc
        · simp at hc
        · simp at hc
    · -- compileConditional
      intro n h hc
      simp only [condSafeB, Bool.and_eq_true] at h
      obtain ⟨⟨⟨hne, hns⟩, hels⟩, helsif⟩ := h
      rw [Bool.not_eq_true'] at hne
      simp only [compileConditional] at hc
      rw [if_neg (by simp [hne])] at hc
      cases hcp : condParts n.conds with
      | error e =>
        simp only [hcp] at hc; simp at hc
        exact condPartsNoMissing n.conds (hc ▸ hcp)
      | ok parts =>
        simp only [hcp] at hc
        cases hel : n.els with
        | some eb =>
          have hebs : nodesSafeB eb.nodes = true := by
            rw [hel] at hels
            rcases eb with ⟨bt, bns, bv, bfs, bcs, be, bei, ba⟩
            simpa [elsNodesSafeB, Node.nodes] using hels
          simp only [hel] at hc
          cases hpe : process f eb.nodes with
          | error er =>
            simp only [hpe, Except.map] at hc; simp at hc
            exact ihP eb.nodes hebs (hc ▸ hpe)
          | ok se =>
            simp only [hpe, Except.map] at hc
            cases hei : n.elsif with
            | some ein =>
              have heis : condSafeB ein = true := by
                rw [hei, elsifSafeBSome] at helsif; exact helsif
              simp only [hei] at hc
              cases hce : compileConditional f ein with
              | error er =>
                simp only [hce, Except.map] at hc; simp at hc
                exact ihC ein heis (hc ▸ hce)
              | ok te =>
                simp only [hce, Except.map] at hc
                cases hpn : process f n.nodes with
                | error er =>
                  simp only [hpn] at hc; simp at hc
                  exact ihP n.nodes hns (hc ▸ hpn)
                | ok tn => simp only [hpn] at hc; simp at hc
            | none =>
              simp only [hei] at hc
              cases hpn : process f n.nodes with
              | error er =>
                simp only [hpn] at hc; simp at hc
                exact ihP n.nodes hns (hc ▸ hpn)
              | ok tn => simp only [hpn] at hc; simp at hc
        | none =>
          simp only [hel] at hc
          cases hei : n.elsif with
          | some ein =>
            have heis : condSafeB ein = true := by
              rw [hei, elsifSafeBSome] at helsif; exact helsif
            simp only [hei] at hc
            cases hce : compileConditional f ein with
            | error er =>
              simp only [hce, Except.map] at hc; simp at hc
              exact ihC ein heis (hc ▸ hce)
            | ok te =>
              simp only [hce, Except.map] at hc
              cases hpn : process f n.nodes with
              | error er =>
                simp only [hpn] at hc; simp at hc
                exact ihP n.nodes hns (hc ▸ hpn)
              | ok tn => simp only [hpn] at hc; simp at hc
          | none =>
            simp only [hei] at hc
            cases hpn : process f n.nodes with
            | error er =>
              simp only [hpn] at hc; simp at hc
              exact ihP n.nodes hns (hc ▸ hpn)
            | ok tn => simp only [hpn] at hc; simp at hc
    · -- compileLoop
      intro n h hc
      simp only [compileLoop] at hc
      cases hpn : process f n.nodes with
      | error er =>
        simp only [hpn] at hc; simp at hc
        exact ihP n.nodes h (hc ▸ hpn)
      | ok tn => simp only [hpn] at hc; simp at hc

/-- C9 amended: a ConditionalExpression whose condition list is empty
fails fatally with "Missing conditions to if statement."; a conditional
never raises this error provided every conditional the compilation
recursion can reach from it — the node itself, conditionals nested in its
bodies and loop bodies, else-body contents, and the whole elsif chain
(which is re-checked by the recursive call on `node.elsif`) — has at
least one condition.  The bare claim "at least one condition at the top
never raises it" is refuted by `C9_elsif_missing_cex`. -/
theorem C9_missing_conditions :
    (∀ (fuel : Nat) (n : Node), n.conds = [] →
        compileConditional (fuel + 1) n = .error "Missing conditions to if statement.")
    ∧ (∀ (fuel : Nat) (n : Node), condSafeB n = true →
        compileConditional fuel n ≠ .error "Missing conditions to if statement.") :=
  ⟨fun fuel n h => by simp [compileConditional, h],
   fun fuel => (noMissingAll fuel).2.2.1⟩

/-- Witness for C9 (amended): a condition-less conditional errors, a
deeply safe one-condition conditional does not. -/
theorem C9_missing_conditions_witness :
    compileConditional 8 (.mk (some "ConditionalExpression") [] none [] [] none none []) =
      .error "Missing conditions to if statement."
    ∧ compileConditional 8 (.mk (some "ConditionalExpression") [] none []
        [⟨"Literal", some "true"⟩] none none []) ≠
      .error "Missing conditions to if statement." :=
  ⟨C9_missing_conditions.1 7 _ (by rfl), C9_missing_conditions.2 8 _ (by rfl)⟩

theorem noAdjTextsSnocNonText (l : List Node) (x : Node)
    (hl : noAdjTexts l = true) (hx : isTextN x = false) :
    noAdjTexts (l ++ [x]) = true := by
  induction l with
  | nil => simp [noAdjTexts]
  | cons a r ih =>
    cases r with
    | nil => simp [noAdjTexts, hx]
    | cons b r2 =>
      simp only [noAdjTexts, Bool.and_eq_true] at hl
      simp only [List.cons_append, noAdjTexts, Bool.and_eq_true]
      exact ⟨hl.1, by simpa using ih hl.2⟩

theorem noAdjTextsSnocAfter (l : List Node) (x p : Node)
    (hl : noAdjTexts l = true) (hp : l.getLast? = some p) (hpt : isTextN p = false) :
    noAdjTexts (l ++ [x]) = true := by
  induction l with
  | nil => simp at hp
  | cons a r ih =>
    cases r with
    | nil =>
      simp at hp
      subst hp
      simp [noAdjTexts, hpt]
    | cons b r2 =>
      simp only [noAdjTexts, Bool.and_eq_true] at hl
      have hp2 : (b :: r2).getLast? = some p := by
        rw [← hp]; simp [List.getLast?_cons_cons]
      simp only [List.cons_append, noAdjTexts, Bool.and_eq_true]
      exact ⟨hl.1, by simpa using ih hl.2 hp2⟩

theorem noAdjTextsPopPush (l : List Node) (x p : Node)
    (hl : noAdjTexts l = true) (hp : l.getLast? = some p) (hpt : isTextN p = true) :
    noAdjTexts (l.dropLast ++ [x]) = true := by
  induction l with
  | nil => simp at hp
  | cons a r ih =>
    cases r with
    | nil => simp [noAdjTexts]
    | cons b r2 =>
      simp only [noAdjTexts, Bool.and_eq_true] at hl
      have hp2 : (b :: r2).getLast? = some p := by
        rw [← hp]; simp [List.getLast?_cons_cons]
      cases r2 with
      | nil =>
        simp at hp2
        subst hp2
        have ha : isTextN a = false := by
          rcases h : isTextN a
          · rfl
          · exfalso
            have := hl.1
            rw [h, hpt] at this
            simp at this
        simp [noAdjTexts, ha]
      | cons c r3 =>
        have := ih hl.2 hp2
        simp only [List.dropLast_cons₂, List.cons_append, noAdjTexts, Bool.and_eq_true]
        constructor
        · exact hl.1
        · simpa [List.dropLast_cons₂] using this

theorem nodesOkSnoc (l : List Node) (x : Node) :
    nodesOk (l ++ [x]) = (nodesOk l && nodeOk x) := by
  induction l with
  | nil => simp [nodesOk]
  | cons a r ih => simp [nodesOk, ih, Bool.and_assoc]

theorem nodesOkDropLast (l : List Node) (h : nodesOk l = true) :
    nodesOk l.dropLast = true := by
  induction l with
  | nil => simp [nodesOk]
  | cons a r ih =>
    cases r with
    | nil => simp [nodesOk]
    | cons b r2 =>
      simp only [nodesOk, Bool.and_eq_true] at h
      obtain ⟨h1, h2, h3⟩ := h
      simp only [List.dropLast_cons₂, nodesOk, Bool.and_eq_true]
      refine ⟨h1, ?_⟩
      have := ih (by simp [nodesOk, h2, h3])
      simpa [List.dropLast_cons₂] using this

theorem nodeOkAcc (n : Node) :
    nodeOk n = (noAdjTexts n.nodes && nodesOk n.nodes && optOk n.els && optOk n.elsif) := by
  rcases n with ⟨t, ns, v, fs, cs, e, ei, a⟩
  rfl

theorem nodeOkCongr (a b : Node) (hn : a.nodes = b.nodes) (he : a.els = b.els)
    (hei : a.elsif = b.elsif) : nodeOk a = nodeOk b := by
  rw [nodeOkAcc, nodeOkAcc, hn, he, hei]

theorem typEvolveRefl (a : Node) : typEvolve a a :=
  ⟨fun _ h => h, fun h => Or.inl h⟩

theorem typEvolveTrans (a b c : Node) (h1 : typEvolve a b) (h2 : typEvolve b c) :
    typEvolve a c := by
  refine ⟨fun t ht => h2.1 t (h1.1 t ht), fun ht => ?_⟩
  rcases h1.2 ht with h | h
  · exact h2.2 h
  · exact Or.inr (h2.1 _ h)

theorem typEvolveCongrLeft (a a' c : Node) (h : a.typ = a'.typ)
    (h2 : typEvolve a' c) : typEvolve a c := by
  constructor
  · intro t ht; exact h2.1 t (h ▸ ht)
  · intro ht; exact h2.2 (h ▸ ht)

theorem typEvolveNotText (a b : Node) (h : typEvolve a b) (ha : isTextN a = false) :
    isTextN b = false := by
  simp only [isTextN, decide_eq_false_iff_not] at ha ⊢
  intro hb
  cases ht : a.typ with
  | some t =>
    have := h.1 t ht
    rw [this] at hb
    cases hb
    exact ha (ht.trans (by rfl))
  | none =>
    rcases h.2 ht with h' | h' <;> rw [h'] at hb <;> simp at hb

theorem defaultTypEvolve (a b : Node) (h : b.typ = defaultCondTyp a) : typEvolve a b := by
  constructor
  · intro t ht
    rw [h]
    simp [defaultCondTyp, ht]
  · intro ht
    rw [h]
    simp [defaultCondTyp, ht]

theorem defaultNotText (a b : Node) (ha : isTextN a = false)
    (h : b.typ = defaultCondTyp a) : isTextN b = false := by
  simp only [isTextN, decide_eq_false_iff_not] at ha ⊢
  rw [h]
  cases ht : a.typ with
  | some t =>
    simp only [defaultCondTyp, ht]
    intro hc
    cases hc
    exact ha (ht.trans rfl)
  | none => simp [defaultCondTyp, ht]

theorem commentNoNod (fuel : Nat) :
    ∀ (prev : Option String) (stack : List Token) (res : PRes) (s : List Token),
      constructComment fuel prev stack = .ok (res, s) → res = .noth := by
  induction fuel with
  | zero => intro prev stack res s h; simp [constructComment] at h
  | succ f ih =>
    intro prev stack res s h
    match stack with
    | [] =>
      simp only [constructComment] at h
      cases h
      rfl
    | t :: rest =>
      simp only [constructComment] at h
      split at h
      · split at h
        · cases hin : constructComment f none rest with
          | error e => rw [hin] at h; simp at h
          | ok v =>
            obtain ⟨v1, v2⟩ := v
            rw [hin] at h
            simp only at h
            exact ih _ v2 res s h
        · exact ih _ rest res s h
      · split at h
        · simp at h
          exact h.1.symm
        · exact ih _ rest res s h
      · exact ih _ rest res s h

theorem coreFieldsEqRefl (a : Node) : coreFieldsEq a a := ⟨rfl, rfl, rfl, rfl⟩

theorem coreFieldsEqTrans (a b c : Node) (h1 : coreFieldsEq a b) (h2 : coreFieldsEq b c) :
    coreFieldsEq a c :=
  ⟨h1.1.trans h2.1, h1.2.1.trans h2.2.1, h1.2.2.1.trans h2.2.2.1, h1.2.2.2.trans h2.2.2.2⟩

theorem coreWithVal (r : Node) (v : Option String) : coreFieldsEq (withVal r v) r := by
  rcases r with ⟨t, ns, vv, fs, cs, e, ei, a⟩
  exact ⟨rfl, rfl, rfl, rfl⟩

theorem coreWithArgs (r : Node) (a : List String) : coreFieldsEq (withArgs r a) r := by
  rcases r with ⟨t, ns, vv, fs, cs, e, ei, aa⟩
  exact ⟨rfl, rfl, rfl, rfl⟩

theorem coreWithConds (r : Node) (c : List CondNode) : coreFieldsEq (withConds r c) r := by
  rcases r with ⟨t, ns, vv, fs, cs, e, ei, aa⟩
  exact ⟨rfl, rfl, rfl, rfl⟩

theorem coreWithFilters (r : Node) (fs' : List FilterNode) :
    coreFieldsEq (withFilters r fs') r := by
  rcases r with ⟨t, ns, vv, fs, cs, e, ei, aa⟩
  exact ⟨rfl, rfl, rfl, rfl⟩

theorem corePushCond (r : Node) (c : CondNode) : coreFieldsEq (pushCond r c) r :=
  coreWithConds r _

theorem corePushFilter (r : Node) (f : FilterNode) : coreFieldsEq (pushFilter r f) r :=
  coreWithFilters r _

theorem coreMirrorCur (r : Node) (p : List Nat) (c : FilterNode) :
    coreFieldsEq (mirrorCur r p c) r :=
  coreWithFilters r _

theorem coreAppendLastCond (r : Node) (s : String) :
    coreFieldsEq (appendLastCondValue r s) r := by
  unfold appendLastCondValue
  cases r.conds.getLast? with
  | none => exact coreFieldsEqRefl r
  | some c => exact coreWithConds r _

theorem pushNodeTyp (r x : Node) : (pushNode r x).typ = r.typ := by
  rcases r with ⟨t, ns, v, fs, cs, e, ei, a⟩; rfl

theorem pushNodeNodes (r x : Node) : (pushNode r x).nodes = r.nodes ++ [x] := by
  rcases r with ⟨t, ns, v, fs, cs, e, ei, a⟩; rfl

theorem pushNodeEls (r x : Node) : (pushNode r x).els = r.els := by
  rcases r with ⟨t, ns, v, fs, cs, e, ei, a⟩; rfl

theorem pushNodeElsif (r x : Node) : (pushNode r x).elsif = r.elsif := by
  rcases r with ⟨t, ns, v, fs, cs, e, ei, a⟩; rfl

theorem popNodeFields (r : Node) :
    (popNode r).typ = r.typ ∧ (popNode r).nodes = r.nodes.dropLast ∧
    (popNode r).els = r.els ∧ (popNode r).elsif = r.elsif := by
  rcases r with ⟨t, ns, v, fs, cs, e, ei, a⟩
  exact ⟨rfl, rfl, rfl, rfl⟩

theorem withTypFields (r : Node) (ty : Option String) :
    (withTyp r ty).typ = ty ∧ (withTyp r ty).nodes = r.nodes ∧
    (withTyp r ty).els = r.els ∧ (withTyp r ty).elsif = r.elsif := by
  rcases r with ⟨t, ns, v, fs, cs, e, ei, a⟩
  exact ⟨rfl, rfl, rfl, rfl⟩

theorem withNodesFields (r : Node) (ns' : List Node) :
    (withNodes r ns').typ = r.typ ∧ (withNodes r ns').nodes = ns' ∧
    (withNodes r ns').els = r.els ∧ (withNodes r ns').elsif = r.elsif := by
  rcases r with ⟨t, ns, v, fs, cs, e, ei, a⟩
  exact ⟨rfl, rfl, rfl, rfl⟩

theorem withElsFields (r : Node) (e' : Option Node) :
    (withEls r e').typ = r.typ ∧ (withEls r e').nodes = r.nodes ∧
    (withEls r e').els = e' ∧ (withEls r e').elsif = r.elsif := by
  rcases r with ⟨t, ns, v, fs, cs, e, ei, a⟩
  exact ⟨rfl, rfl, rfl, rfl⟩

theorem withElsifFields (r : Node) (ei' : Option Node) :
    (withElsif r ei').typ = r.typ ∧ (withElsif r ei').nodes = r.nodes ∧
    (withElsif r ei').els = r.els ∧ (withElsif r ei').elsif = ei' := by
  rcases r with ⟨t, ns, v, fs, cs, e, ei, a⟩
  exact ⟨rfl, rfl, rfl, rfl⟩

theorem withValTyp (r : Node) (v : Option String) : (withVal r v).val = v := by
  rcases r with ⟨t, ns, vv, fs, cs, e, ei, a⟩; rfl

theorem filterLoopCore (fuel : Nat) :
    ∀ (root : Node) (cur : FilterNode) (pushed : List Nat) (stack : List Token)
      (r : Node) (s : List Token),
      filterLoop fuel root cur pushed stack = .ok (r, s) → coreFieldsEq r root := by
  induction fuel with
  | zero => intro root cur pushed stack r s h; simp [filterLoop] at h
  | succ f ih =>
    intro root cur pushed stack r s h
    match stack with
    | [] =>
      simp only [filterLoop] at h
      simp at h
      rw [← h.1]
      exact coreFieldsEqRefl root
    | t :: rest =>
      simp only [filterLoop] at h
      split at h
      · exact coreFieldsEqTrans _ _ _ (ih _ _ _ _ _ _ h) (coreMirrorCur root pushed _)
      · exact ih _ _ _ _ _ _ h
      · simp at h
        rw [← h.1]
        exact corePushFilter root cur
      · simp at h
        rw [← h.1]
        exact corePushFilter root cur
      · cases hin : filterLoop f (pushFilter root cur) freshFilter [] rest with
        | error e => rw [hin] at h; simp at h
        | ok v =>
          obtain ⟨r2, s2⟩ := v
          rw [hin] at h
          simp only at h
          exact coreFieldsEqTrans _ _ _ (ih _ _ _ _ _ _ h)
            (coreFieldsEqTrans _ _ _ (ih _ _ _ _ _ _ hin) (corePushFilter root cur))
      · simp at h

theorem propertyLoopCore (fuel : Nat) :
    ∀ (prop : Node) (stack : List Token) (p : Node) (s : List Token),
      propertyLoop fuel prop stack = .ok (p, s) → coreFieldsEq p prop := by
  induction fuel with
  | zero => intro prop stack p s h; simp [propertyLoop] at h
  | succ f ih =>
    intro prop stack p s h
    match stack with
    | [] => simp [propertyLoop] at h
    | t :: rest =>
      simp only [propertyLoop] at h
      split at h
      · exact ih _ _ _ _ h
      · exact coreFieldsEqTrans _ _ _ (filterLoopCore f _ _ _ _ _ _ h)
          (coreFieldsEqRefl prop)
      · simp at h
        rw [← h.1]
        exact coreFieldsEqRefl prop
      · simp at h
        rw [← h.1]
        exact coreFieldsEqRefl prop
      · exact coreFieldsEqTrans _ _ _ (ih _ _ _ _ h) (coreWithVal prop _)

theorem eachLoopCore (fuel : Nat) :
    ∀ (root : Node) (stack : List Token) (r : Node) (s : List Token),
      eachLoop fuel root stack = .ok (r, s) → coreFieldsEq r root := by
  induction fuel with
  | zero => intro root stack r s h; simp [eachLoop] at h
  | succ f ih =>
    intro root stack r s h
    match stack with
    | [] =>
      simp only [eachLoop] at h
      simp at h
      rw [← h.1]
      exact coreFieldsEqRefl root
    | t :: rest =>
      simp only [eachLoop] at h
      split at h
      · exact coreFieldsEqTrans _ _ _ (ih _ _ _ _ h) (corePushCond root _)
      · exact coreFieldsEqTrans _ _ _ (ih _ _ _ _ h) (corePushCond root _)
      · simp at h
        rw [← h.1]
        exact coreFieldsEqRefl root
      · exact ih _ _ _ _ h

theorem condLoopCore (fuel : Nat) :
    ∀ (root : Node) (prevT : Option String) (stack : List Token) (r : Node)
      (s : List Token),
      condLoop fuel root prevT stack = .ok (r, s) → coreFieldsEq r root := by
  induction fuel with
  | zero => intro root prevT stack r s h; simp [condLoop] at h
  | succ f ih =>
    intro root prevT stack r s h
    match stack with
    | [] =>
      simp only [condLoop] at h
      simp at h
      rw [← h.1]
      exact coreFieldsEqRefl root
    | t :: rest =>
      simp only [condLoop] at h
      split at h
      · exact coreFieldsEqTrans _ _ _ (ih _ _ _ _ _ h) (corePushCond root _)
      · exact coreFieldsEqTrans _ _ _ (ih _ _ _ _ _ h) (corePushCond root _)
      · exact coreFieldsEqTrans _ _ _ (ih _ _ _ _ _ h) (corePushCond root _)
      · exact coreFieldsEqTrans _ _ _ (ih _ _ _ _ _ h) (corePushCond root _)
      · exact coreFieldsEqTrans _ _ _ (ih _ _ _ _ _ h) (corePushCond root _)
      · exact coreFieldsEqTrans _ _ _ (ih _ _ _ _ _ h) (corePushCond root _)
      · exact coreFieldsEqTrans _ _ _ (ih _ _ _ _ _ h) (corePushCond root _)
      · simp at h
        rw [← h.1]
        exact coreFieldsEqRefl root
      · exact ih _ _ _ _ _ h
      · split at h
        · exact coreFieldsEqTrans _ _ _ (ih _ _ _ _ _ h) (corePushCond root _)
        · split at h
          · exact coreFieldsEqTrans _ _ _ (ih _ _ _ _ _ h) (corePushCond root _)
          · split at h
            · exact coreFieldsEqTrans _ _ _ (ih _ _ _ _ _ h) (corePushCond root _)
            · split at h
              · exact coreFieldsEqTrans _ _ _ (ih _ _ _ _ _ h)
                  (coreAppendLastCond root _)
              · exact coreFieldsEqTrans _ _ _ (ih _ _ _ _ _ h) (corePushCond root _)

theorem partialLoopCore (fuel : Nat) :
    ∀ (root : Node) (stack : List Token) (r : Node) (s : List Token),
      partialLoop fuel root stack = .ok (r, s) → coreFieldsEq r root := by
  induction fuel with
  | zero => intro root stack r s h; simp [partialLoop] at h
  | succ f ih =>
    intro root stack r s h
    match stack with
    | [] =>
      simp only [partialLoop] at h
      simp at h
      rw [← h.1]
      exact coreFieldsEqRefl root
    | t :: rest =>
      simp only [partialLoop] at h
      split at h
      · split at h
        · exact coreFieldsEqTrans _ _ _ (ih _ _ _ _ h) (coreWithVal root _)
        · exact coreFieldsEqTrans _ _ _ (ih _ _ _ _ h) (coreWithArgs root _)
      · exact ih _ _ _ _ h
      · simp at h
        rw [← h.1]
        exact coreFieldsEqRefl root
      · simp at h

theorem constructPartialSpec (fuel : Nat) (root : Node) (stack : List Token)
    (r : Node) (s : List Token) (hok : nodeOk root = true)
    (h : constructPartial fuel root stack = .ok (r, s)) :
    nodeOk r = true ∧ r.typ = some "PartialExpression" := by
  match fuel with
  | 0 => simp [constructPartial] at h
  | f + 1 =>
    rcases root with ⟨t, ns, v, fs, cs, e, ei, a⟩
    simp only [constructPartial, withTyp, withNodes, withArgs] at h
    rcases r with ⟨rt, rns, rv, rfs, rcs, re, rei, ra⟩
    obtain ⟨ht, hn, he, hei⟩ := partialLoopCore f _ _ _ _ h
    simp only [Node.typ, Node.nodes, Node.els, Node.elsif] at ht hn he hei
    subst ht hn he hei
    simp only [nodeOk, Bool.and_eq_true] at hok
    obtain ⟨⟨⟨hok1, hok2⟩, hok3⟩, hok4⟩ := hok
    exact ⟨by simp [nodeOk, noAdjTexts, nodesOk, hok3, hok4], rfl⟩

theorem nodeOkOfCore (a b : Node) (h : coreFieldsEq a b) : nodeOk a = nodeOk b :=
  nodeOkCongr a b h.2.1 h.2.2.1 h.2.2.2

theorem isTextNPush (r x : Node) : isTextN (pushNode r x) = isTextN r := by
  simp [isTextN, pushNodeTyp]

theorem nodeOkPushNonText (root x : Node) (hok : nodeOk root = true)
    (hx : nodeOk x = true) (ht : isTextN x = false) :
    nodeOk (pushNode root x) = true := by
  rcases root with ⟨t, ns, v, fs, cs, e, ei, a⟩
  simp only [nodeOk, Bool.and_eq_true] at hok
  obtain ⟨⟨⟨h1, h2⟩, h3⟩, h4⟩ := hok
  simp only [pushNode, nodeOk, Bool.and_eq_true]
  refine ⟨⟨⟨noAdjTextsSnocNonText ns x h1 ht, ?_⟩, h3⟩, h4⟩
  rw [nodesOkSnoc, h2, hx]
  rfl

theorem propertyNodeOk (enc : Bool) (p : Node)
    (hc : coreFieldsEq p (propDescriptor enc)) :
    nodeOk p = true ∧ isTextN p = false := by
  obtain ⟨ht, hn, he, hei⟩ := hc
  constructor
  · rw [nodeOkAcc, hn, he, hei]
    cases enc <;> rfl
  · simp only [isTextN]
    rw [ht]
    cases enc <;> rfl

theorem isTextNOfTyp (a : Node) (t : String) (h : a.typ = some t) (hne : t ≠ "Text") :
    isTextN a = false := by
  simp only [isTextN, h]
  simpa using fun hc => hne hc

theorem nodeOkWithEls (root e0 : Node) (M : Option String) (hok : nodeOk root = true)
    (he0 : nodeOk e0 = true) : nodeOk (withEls (withTyp root M) (some e0)) = true := by
  rcases root with ⟨rt, rns, rv, rfs, rcs, re, rei, ra⟩
  simp only [nodeOk, Bool.and_eq_true] at hok
  obtain ⟨⟨⟨k1, k2⟩, k3⟩, k4⟩ := hok
  simp only [withTyp, withEls, nodeOk, optOk, Bool.and_eq_true]
  exact ⟨⟨⟨k1, k2⟩, he0⟩, k4⟩

theorem nodeOkWithElsif (root in0 : Node) (M : Option String) (hok : nodeOk root = true)
    (hin : nodeOk in0 = true) : nodeOk (withElsif (withTyp root M) (some in0)) = true := by
  rcases root with ⟨rt, rns, rv, rfs, rcs, re, rei, ra⟩
  simp only [nodeOk, Bool.and_eq_true] at hok
  obtain ⟨⟨⟨k1, k2⟩, k3⟩, k4⟩ := hok
  simp only [withTyp, withElsif, nodeOk, optOk, Bool.and_eq_true]
  exact ⟨⟨⟨k1, k2⟩, k3⟩, hin⟩

theorem typWithEls (root : Node) (M : Option String) (e : Option Node) :
    (withEls (withTyp root M) e).typ = M := by
  rcases root with ⟨rt, rns, rv, rfs, rcs, re, rei, ra⟩
  rfl

theorem typWithElsif (root : Node) (M : Option String) (e : Option Node) :
    (withElsif (withTyp root M) e).typ = M := by
  rcases root with ⟨rt, rns, rv, rfs, rcs, re, rei, ra⟩
  rfl

theorem parserInv (fuel : Nat) :
    (∀ (root : Node) (END : Option String) (stack : List Token) (r : Node) (b : Bool)
        (s : List Token),
        nodeOk root = true → isTextN root = false →
        make fuel root END stack = .ok (r, b, s) →
        nodeOk r = true ∧ typEvolve root r)
    ∧ (∀ (root : Node) (END : Option String) (stack : List Token) (r : Node)
        (res : PRes) (s : List Token),
        nodeOk root = true → isTextN root = false →
        constructExpression fuel root END stack = .ok (r, res, s) →
        nodeOk r = true ∧ typEvolve root r ∧
          (∀ n, res = .nod n → nodeOk n = true ∧ isTextN n = false))
    ∧ (∀ (root : Node) (kind : Option String) (stack : List Token) (r : Node)
        (res : PRes) (s : List Token),
        nodeOk root = true → isTextN root = false →
        constructConditional fuel root kind stack = .ok (r, res, s) →
        nodeOk r = true ∧ r.typ = defaultCondTyp root ∧
          (∀ n, res = .nod n → nodeOk n = true ∧ isTextN n = false))
    ∧ (∀ (root : Node) (stack : List Token) (r : Node) (s : List Token),
        nodeOk root = true →
        constructEach fuel root stack = .ok (r, s) →
        nodeOk r = true ∧ r.typ = some "LoopExpression") := by
  induction fuel with
  | zero =>
    refine ⟨fun root END stack r b s _ _ h => ?_, fun root END stack r res s _ _ h => ?_,
      fun root kind stack r res s _ _ h => ?_, fun root stack r s _ h => ?_⟩
    · simp [make] at h
    · simp [constructExpression] at h
    · simp [constructConditional] at h
    · simp [constructEach] at h
  | succ f ih =>
    obtain ⟨ihM, ihE, ihC, ihH⟩ := ih
    refine ⟨?_, ?_, ?_, ?_⟩
    · -- make
      intro root END stack r b s hok htxt h
      match stack with
      | [] =>
        simp only [make] at h
        simp at h
        rw [← h.1]
        exact ⟨hok, typEvolveRefl root⟩
      | t :: rest =>
        simp only [make] at h
        split at h
        · -- START_RAW
          cases hp : propertyLoop f (propDescriptor false) rest with
          | error e => rw [hp] at h; simp at h
          | ok v =>
            obtain ⟨p, s1⟩ := v
            rw [hp] at h
            simp only at h
            obtain ⟨hpo, hpt⟩ := propertyNodeOk false p (propertyLoopCore f _ _ _ _ hp)
            obtain ⟨hr, he⟩ := ihM _ END s1 r b s
              (nodeOkPushNonText root p hok hpo hpt)
              (by rw [isTextNPush]; exact htxt) h
            exact ⟨hr, typEvolveCongrLeft _ _ _ (pushNodeTyp root p).symm he⟩
        · -- START_PROP
          cases hp : propertyLoop f (propDescriptor true) rest with
          | error e => rw [hp] at h; simp at h
          | ok v =>
            obtain ⟨p, s1⟩ := v
            rw [hp] at h
            simp only at h
            obtain ⟨hpo, hpt⟩ := propertyNodeOk true p (propertyLoopCore f _ _ _ _ hp)
            obtain ⟨hr, he⟩ := ihM _ END s1 r b s
              (nodeOkPushNonText root p hok hpo hpt)
              (by rw [isTextNPush]; exact htxt) h
            exact ⟨hr, typEvolveCongrLeft _ _ _ (pushNodeTyp root p).symm he⟩
        · -- START_EXPR
          cases hce : constructExpression f root END rest with
          | error e => rw [hce] at h; simp at h
          | ok v =>
            obtain ⟨root', res, s1⟩ := v
            rw [hce] at h
            obtain ⟨hro, hte, hnp⟩ := ihE root END rest root' res s1 hok htxt hce
            cases res with
            | nod n =>
              simp only at h
              obtain ⟨hn, hnt⟩ := hnp n rfl
              obtain ⟨hr, he⟩ := ihM _ END s1 r b s
                (nodeOkPushNonText root' n hro hn hnt)
                (by rw [isTextNPush]; exact typEvolveNotText root root' hte htxt) h
              refine ⟨hr, typEvolveTrans _ _ _ hte
                (typEvolveCongrLeft _ _ _ (pushNodeTyp root' n).symm he)⟩
            | noth =>
              simp only at h
              obtain ⟨hr, he⟩ := ihM root' END s1 r b s hro
                (typEvolveNotText root root' hte htxt) h
              exact ⟨hr, typEvolveTrans _ _ _ hte he⟩
            | halt =>
              simp only at h
              simp at h
              rw [← h.1]
              exact ⟨hro, hte⟩
        · -- END_EXPR
          exact (ihM root END rest r b s hok htxt h).imp id id
        · -- default: text merge
          cases hlast : root.nodes.getLast? with
          | some p =>
            rw [hlast] at h
            simp only at h
            by_cases hpt : p.typ = some "Text"
            · rw [if_pos hpt] at h
              have hok2 : nodeOk (pushNode (popNode root)
                  (textNode ((p.val.getD "undefined") ++ t.capture))) = true := by
                rcases root with ⟨rt, rns, rv, rfs, rcs, re, rei, ra⟩
                simp only [nodeOk, Bool.and_eq_true] at hok
                obtain ⟨⟨⟨h1, h2⟩, h3⟩, h4⟩ := hok
                simp only [popNode, withNodes, Node.nodes, pushNode, nodeOk,
                  Bool.and_eq_true]
                refine ⟨⟨⟨?_, ?_⟩, h3⟩, h4⟩
                · exact noAdjTextsPopPush rns _ p h1 hlast (by simp [isTextN, hpt])
                · rw [nodesOkSnoc, nodesOkDropLast rns h2]
                  rfl
              have htx2 : isTextN (pushNode (popNode root)
                  (textNode ((p.val.getD "undefined") ++ t.capture))) = false := by
                rcases root with ⟨rt, rns, rv, rfs, rcs, re, rei, ra⟩
                simpa [isTextN, pushNode, popNode, withNodes, Node.typ] using htxt
              obtain ⟨hr, he⟩ := ihM _ END rest r b s hok2 htx2 h
              refine ⟨hr, ?_⟩
              refine typEvolveCongrLeft _ _ _ ?_ he
              rcases root with ⟨rt, rns, rv, rfs, rcs, re, rei, ra⟩
              rfl
            · rw [if_neg hpt] at h
              have hok2 : nodeOk (pushNode root (textNode t.capture)) = true := by
                rcases root with ⟨rt, rns, rv, rfs, rcs, re, rei, ra⟩
                simp only [nodeOk, Bool.and_eq_true] at hok
                obtain ⟨⟨⟨h1, h2⟩, h3⟩, h4⟩ := hok
                simp only [pushNode, nodeOk, Bool.and_eq_true]
                refine ⟨⟨⟨?_, ?_⟩, h3⟩, h4⟩
                · exact noAdjTextsSnocAfter rns _ p h1 hlast (by simp [isTextN, hpt])
                · rw [nodesOkSnoc, h2]
                  rfl
              obtain ⟨hr, he⟩ := ihM _ END rest r b s hok2
                (by rw [isTextNPush]; exact htxt) h
              exact ⟨hr, typEvolveCongrLeft _ _ _ (pushNodeTyp root _).symm he⟩
          | none =>
            rw [hlast] at h
            simp only at h
            have hok2 : nodeOk (pushNode root (textNode t.capture)) = true := by
              rcases root with ⟨rt, rns, rv, rfs, rcs, re, rei, ra⟩
              have : rns = [] := by
                simpa using List.getLast?_eq_none_iff.mp (by simpa [Node.nodes] using hlast)
              subst this
              simp only [nodeOk, Bool.and_eq_true] at hok
              obtain ⟨⟨⟨h1, h2⟩, h3⟩, h4⟩ := hok
              simp only [pushNode, nodeOk, Bool.and_eq_true]
              exact ⟨⟨⟨rfl, rfl⟩, h3⟩, h4⟩
            obtain ⟨hr, he⟩ := ihM _ END rest r b s hok2
              (by rw [isTextNPush]; exact htxt) h
            exact ⟨hr, typEvolveCongrLeft _ _ _ (pushNodeTyp root _).symm he⟩
    · -- constructExpression
      intro root END stack r res s hok htxt h
      match stack with
      | [] =>
        simp only [constructExpression] at h
        simp at h
        rw [← h.1, ← h.2.1]
        exact ⟨hok, typEvolveRefl root, by simp⟩
      | t :: rest =>
        simp only [constructExpression] at h
        split at h
        · -- case END: return undefined
          simp at h
          rw [← h.1, ← h.2.1]
          exact ⟨hok, typEvolveRefl root, by simp⟩
        · split at h
          · -- WHITESPACE
            exact ihE root END rest r res s hok htxt h
          · -- COMMENT
            cases hcm : constructComment f none rest with
            | error e => rw [hcm] at h; simp at h
            | ok v =>
              obtain ⟨res0, s0⟩ := v
              rw [hcm] at h
              simp only at h
              simp at h
              rw [← h.1, ← h.2.1]
              refine ⟨hok, typEvolveRefl root, fun n hn => ?_⟩
              rw [commentNoNod f none rest res0 s0 hcm] at hn
              simp at hn
          · -- START_EACH
            cases hea : constructEach f freshBody rest with
            | error e => rw [hea] at h; simp at h
            | ok v =>
              obtain ⟨n0, s0⟩ := v
              rw [hea] at h
              simp only at h
              simp at h
              obtain ⟨hn0, htyp0⟩ := ihH freshBody rest n0 s0 (by rfl) hea
              rw [← h.1, ← h.2.1]
              refine ⟨hok, typEvolveRefl root, fun n hn => ?_⟩
              cases hn
              exact ⟨hn0, isTextNOfTyp n0 _ htyp0 (by decide)⟩
          · -- ELSIF
            obtain ⟨hr, htyp, hnp⟩ := ihC root (some "ELSIF") rest r res s hok htxt h
            exact ⟨hr, defaultTypEvolve root r htyp, hnp⟩
          · -- ELSE
            obtain ⟨hr, htyp, hnp⟩ := ihC root (some "ELSE") rest r res s hok htxt h
            exact ⟨hr, defaultTypEvolve root r htyp, hnp⟩
          · -- START_IF
            cases hcc : constructConditional f freshBody (some "START_IF") rest with
            | error e => rw [hcc] at h; simp at h
            | ok v =>
              obtain ⟨n0, res0, s0⟩ := v
              rw [hcc] at h
              simp only at h
              simp at h
              obtain ⟨hn0, htyp0, hnp0⟩ :=
                ihC freshBody (some "START_IF") rest n0 res0 s0 (by rfl) (by rfl) hcc
              rw [← h.1, ← h.2.1]
              exact ⟨hok, typEvolveRefl root, hnp0⟩
          · -- PARTIAL
            cases hp : constructPartial f freshBody rest with
            | error e => rw [hp] at h; simp at h
            | ok v =>
              obtain ⟨n0, s0⟩ := v
              rw [hp] at h
              simp only at h
              simp at h
              obtain ⟨hn0, htyp0⟩ :=
                constructPartialSpec f freshBody rest n0 s0 (by rfl) hp
              rw [← h.1, ← h.2.1]
              refine ⟨hok, typEvolveRefl root, fun n hn => ?_⟩
              cases hn
              exact ⟨hn0, isTextNOfTyp n0 _ htyp0 (by decide)⟩
          · -- default: invalid expression type
            simp at h
    · -- constructConditional
      intro root kind stack r res s hok htxt h
      simp only [constructConditional] at h
      split at h
      · -- ELSE
        cases hm : make f freshBody (some "END_IF") stack with
        | error e => rw [hm] at h; simp at h
        | ok v =>
          obtain ⟨e0, b0, s0⟩ := v
          rw [hm] at h
          simp only at h
          simp at h
          obtain ⟨he0, hte0⟩ :=
            ihM freshBody (some "END_IF") stack e0 b0 s0 (by rfl) (by rfl) hm
          obtain ⟨h1, h2, h3⟩ := h
          rw [← h1, ← h2]
          refine ⟨nodeOkWithEls root e0 _ hok he0, ?_, ?_⟩
          · rw [typWithEls]
            rfl
          · intro n hn
            cases b0
            · simp at hn
            · simp at hn
              rw [← hn]
              exact ⟨he0, typEvolveNotText freshBody e0 hte0 (by rfl)⟩
      · split at h
        · -- ELSIF
          cases hcc : constructConditional f freshBody none stack with
          | error e => rw [hcc] at h; simp at h
          | ok v =>
            obtain ⟨in0, res0, s0⟩ := v
            rw [hcc] at h
            simp only at h
            simp at h
            obtain ⟨hin0, htyp0, hnp0⟩ :=
              ihC freshBody none stack in0 res0 s0 (by rfl) (by rfl) hcc
            obtain ⟨h1, h2, h3⟩ := h
            rw [← h1, ← h2]
            refine ⟨nodeOkWithElsif root in0 _ hok hin0, ?_, hnp0⟩
            rw [typWithElsif]
            rfl
        · -- fresh if / recursion
          cases hcl : condLoop f (withTyp root (match root.typ with
            | some ty => some ty
            | none => some "ConditionalExpression")) none stack with
          | error e => rw [hcl] at h; simp at h
          | ok v =>
            obtain ⟨r1, s1⟩ := v
            rw [hcl] at h
            simp only at h
            have hcore := condLoopCore f _ _ _ _ _ hcl
            have ht1 : r1.typ = defaultCondTyp root := by
              rcases root with ⟨rt, rns, rv, rfs, rcs, re, rei, ra⟩
              refine hcore.1.trans ?_
              cases rt <;> rfl
            have hok1 : nodeOk r1 = true := by
              refine (nodeOkCongr r1 root ?_ ?_ ?_).trans hok
              · refine hcore.2.1.trans ?_
                rcases root with ⟨rt, rns, rv, rfs, rcs, re, rei, ra⟩
                rfl
              · refine hcore.2.2.1.trans ?_
                rcases root with ⟨rt, rns, rv, rfs, rcs, re, rei, ra⟩
                rfl
              · refine hcore.2.2.2.trans ?_
                rcases root with ⟨rt, rns, rv, rfs, rcs, re, rei, ra⟩
                rfl
            have htx1 : isTextN r1 = false := defaultNotText root r1 htxt ht1
            cases hm : make f r1 (some "END_IF") s1 with
            | error e => rw [hm] at h; simp at h
            | ok w =>
              obtain ⟨r2, b2, s2⟩ := w
              rw [hm] at h
              simp only at h
              simp at h
              obtain ⟨hr2, hte2⟩ :=
                ihM r1 (some "END_IF") s1 r2 b2 s2 hok1 htx1 hm
              obtain ⟨h1, h2, h3⟩ := h
              rw [← h1, ← h2]
              have ht2 : r2.typ = defaultCondTyp root := by
                cases hd : defaultCondTyp root with
                | none =>
                  exfalso
                  rcases root with ⟨rt, rns, rv, rfs, rcs, re, rei, ra⟩
                  cases rt <;> simp [defaultCondTyp, Node.typ] at hd
                | some d =>
                  rw [hd] at ht1
                  exact hte2.1 d ht1
              refine ⟨hr2, ht2, fun n hn => ?_⟩
              injection hn with hn2
              subst hn2
              exact ⟨hr2, defaultNotText root r2 htxt ht2⟩
    · -- constructEach
      intro root stack r s hok h
      simp only [constructEach] at h
      cases hel : eachLoop f (withConds (withTyp root (some "LoopExpression")) []) stack with
      | error e => rw [hel] at h; simp at h
      | ok v =>
        obtain ⟨r1, s1⟩ := v
        rw [hel] at h
        simp only at h
        have hcore := eachLoopCore f _ _ _ _ hel
        have ht1 : r1.typ = some "LoopExpression" := by
          refine hcore.1.trans ?_
          rcases root with ⟨rt, rns, rv, rfs, rcs, re, rei, ra⟩
          rfl
        have hok1 : nodeOk r1 = true := by
          refine (nodeOkCongr r1 root ?_ ?_ ?_).trans hok
          · refine hcore.2.1.trans ?_
            rcases root with ⟨rt, rns, rv, rfs, rcs, re, rei, ra⟩
            rfl
          · refine hcore.2.2.1.trans ?_
            rcases root with ⟨rt, rns, rv, rfs, rcs, re, rei, ra⟩
            rfl
          · refine hcore.2.2.2.trans ?_
            rcases root with ⟨rt, rns, rv, rfs, rcs, re, rei, ra⟩
            rfl
        cases hm : make f r1 (some "END_EACH") s1 with
        | error e => rw [hm] at h; simp at h
        | ok w =>
          obtain ⟨r2, b2, s2⟩ := w
          rw [hm] at h
          simp only at h
          simp at h
          obtain ⟨hr2, hte2⟩ := ihM r1 (some "END_EACH") s1 r2 b2 s2 hok1
            (isTextNOfTyp r1 _ ht1 (by decide)) hm
          rw [← h.1]
          exact ⟨hr2, hte2.1 _ ht1⟩

/-- C4: in every tree produced by body parsing from the Template root —
including, recursively, every loop body, conditional body, elsif node and
else-body — no two consecutive sibling nodes are both Text nodes: a new
text token pops an immediately preceding Text sibling and prepends its
value instead of appending a second Text node. -/
theorem C4_no_adjacent_texts :
    ∀ (fuel : Nat) (END : Option String) (stack : List Token) (r : Node) (b : Bool)
      (s : List Token),
      make fuel templateRoot END stack = .ok (r, b, s) → nodeOk r = true :=
  fun fuel END stack r b s h =>
    ((parserInv fuel).1 templateRoot END stack r b s (by rfl) (by rfl) h).1

/-- Witness for C4 on the concrete template `a\x7b\x7bx\x7d\x7db c` (whose adjacent
text tokens merge into one Text sibling around the property). -/
theorem C4_no_adjacent_texts_witness :
    nodeOk (.mk (some "Template")
      [.mk (some "Text") [] (some "a") [] [] none none [],
       .mk (some "Property") [] (some "x") [] [] none none [],
       .mk (some "Text") [] (some "b c") [] [] none none []]
      none [] [] none none []) = true :=
  C4_no_adjacent_texts 64 none c4Toks _ true [] (by rfl)
